import Mathlib

/-!
Verification of the piipii save-file codec.

This file embeds the core of the repository (src/save_data.rs and the
codec part of src/pp.rs) as executable Lean definitions and proves
properties of them.  Byte buffers are `List Nat` whose entries are meant
to be bytes (values below 256); machine integers are `Nat` with explicit
reductions modulo powers of two.  Rust panics (assertions, `unwrap`,
out-of-bounds indexing) and propagated io errors are modeled by an
explicit `Failure` outcome; functions that can panic or err return
`Except Failure`.
-/

namespace PiiPii

/-- Failure outcomes.  The variants `sizeError`, `integrityError` and
`formatError` are the typed error taxonomy described in the
specification; the source code never constructs any of them.  Its actual
failure modes are Rust panics (assertion failures, `unwrap`,
out-of-bounds slice indexing), modeled by `panicked`, and io read/write
errors propagated with the question-mark operator, modeled by
`eofError`. -/
inductive Failure where
  | sizeError
  | integrityError
  | formatError
  | eofError
  | panicked
deriving DecidableEq, Repr

/-- Size in bytes of a savedata.bin file (`SAVEDATA_SIZE` in save_data.rs). -/
def SAVEDATA_SIZE : Nat := 0x34000

/-- Size in bytes of a decryption chunk (`CHUNK_SIZE` in save_data.rs). -/
def CHUNK_SIZE : Nat := 0x10

/-- Amount of decryption chunks (`CHUNK_COUNT` in save_data.rs). -/
def CHUNK_COUNT : Nat := SAVEDATA_SIZE / CHUNK_SIZE

/-- Offset of the PiiBox data for save slot 1 (`PIIBOX_SAVEDATA_OFFSET`). -/
def PIIBOX_SAVEDATA_OFFSET : Nat := 0x1360

/-- On-disk size of one record (`SIZEOF_SDPPD` in save_data.rs). -/
def SIZEOF_SDPPD : Nat := 0x2D

/-- Wrapping u8 addition, `u8::wrapping_add`. -/
def wrapping_add (a b : Nat) : Nat := (a + b) % 256

/-- Wrapping u8 subtraction, `u8::wrapping_sub`.  For bytes `a b < 256`
this is subtraction modulo 256. -/
def wrapping_sub (a b : Nat) : Nat := (a + 256 - b % 256) % 256

/-- Big-endian bytes of a u16 value (byteorder `BigEndian` u16). -/
def u16be (v : Nat) : List Nat := [v / 2 ^ 8 % 256, v % 256]

/-- Big-endian bytes of a u32 value (byteorder `BigEndian` u32). -/
def u32be (v : Nat) : List Nat :=
  [v / 2 ^ 24 % 256, v / 2 ^ 16 % 256, v / 2 ^ 8 % 256, v % 256]

/-- Big-endian bytes of a u64 value (byteorder `BigEndian` u64). -/
def u64be (v : Nat) : List Nat :=
  [v / 2 ^ 56 % 256, v / 2 ^ 48 % 256, v / 2 ^ 40 % 256, v / 2 ^ 32 % 256,
   v / 2 ^ 24 % 256, v / 2 ^ 16 % 256, v / 2 ^ 8 % 256, v % 256]

/- ----------------------------------------------------------------
SHA-1, modeling the external `sha1` crate used by save_data.rs
(the standard FIPS 180 SHA-1 over a byte message, 20-byte digest).
---------------------------------------------------------------- -/

/-- Left rotation of a 32-bit word by `s` places. -/
def rotl (s x : Nat) : Nat := (x * 2 ^ s + x / 2 ^ (32 - s)) % 2 ^ 32

/-- SHA-1 round function, by round index `t`. -/
def sha1F (t b c d : Nat) : Nat :=
  if t < 20 then (b &&& c) ||| ((b ^^^ 0xFFFFFFFF) &&& d)
  else if t < 40 then b ^^^ c ^^^ d
  else if t < 60 then (b &&& c) ||| (b &&& d) ||| (c &&& d)
  else b ^^^ c ^^^ d

/-- SHA-1 round constant, by round index `t`. -/
def sha1K (t : Nat) : Nat :=
  if t < 20 then 0x5A827999
  else if t < 40 then 0x6ED9EBA1
  else if t < 60 then 0x8F1BBCDC
  else 0xCA62C1D6

/-- Running state of SHA-1 (five 32-bit words). -/
structure Sha1State where
  a : Nat
  b : Nat
  c : Nat
  d : Nat
  e : Nat
deriving DecidableEq, Repr

/-- Group a byte list into big-endian 32-bit words. -/
def bytesToWords : List Nat → List Nat
  | b0 :: b1 :: b2 :: b3 :: rest =>
    (b0 * 2 ^ 24 + b1 * 2 ^ 16 + b2 * 2 ^ 8 + b3) :: bytesToWords rest
  | _ => []

/-- Extend the 16 words of a block to the 80-word message schedule.
The accumulator keeps the words most recent first. -/
def sha1Schedule (ws : List Nat) : List Nat :=
  ((List.range 64).foldl
    (fun acc _ =>
      rotl 1 (acc.getD 2 0 ^^^ acc.getD 7 0 ^^^ acc.getD 13 0 ^^^ acc.getD 15 0) :: acc)
    ws.reverse).reverse

/-- One SHA-1 round step. -/
def sha1Round (st : Sha1State) (tw : Nat × Nat) : Sha1State :=
  let temp := (rotl 5 st.a + sha1F tw.1 st.b st.c st.d + st.e + sha1K tw.1 + tw.2) % 2 ^ 32
  ⟨temp, st.a, rotl 30 st.b, st.c, st.d⟩

/-- Compress one 64-byte block into the running state. -/
def sha1Block (h : Sha1State) (block : List Nat) : Sha1State :=
  let ws := sha1Schedule (bytesToWords block)
  let f := ((List.range 80).zip ws).foldl sha1Round h
  ⟨(h.a + f.a) % 2 ^ 32, (h.b + f.b) % 2 ^ 32, (h.c + f.c) % 2 ^ 32,
   (h.d + f.d) % 2 ^ 32, (h.e + f.e) % 2 ^ 32⟩

/-- Split a byte list into 64-byte blocks. -/
def chunksOf64 (l : List Nat) : List (List Nat) :=
  if h : l = [] then []
  else
    have : l.length - 64 < l.length := by
      cases l with
      | nil => exact absurd rfl h
      | cons x xs => simp; omega
    l.take 64 :: chunksOf64 (l.drop 64)
termination_by l.length
decreasing_by simpa using this

/-- SHA-1 of a byte message: pad to a multiple of 64 bytes with 0x80,
zeros and the 64-bit bit length, compress all blocks, serialize the
five state words big-endian.  Digest is always 20 bytes. -/
def sha1 (msg : List Nat) : List Nat :=
  let padded := msg ++ 0x80 :: (List.replicate ((120 - (msg.length + 1) % 64) % 64) 0
    ++ u64be (msg.length * 8))
  let f := (chunksOf64 padded).foldl sha1Block
    ⟨0x67452301, 0xEFCDAB89, 0x98BADCFE, 0x10325476, 0xC3D2E1F0⟩
  u32be f.a ++ u32be f.b ++ u32be f.c ++ u32be f.d ++ u32be f.e

/- ----------------------------------------------------------------
The chunk cipher of save_data.rs.

A Rust index expression `savedata[i]` panics when out of bounds, so the
faithful embedding threads an `Except Failure` through every access.
`sliceGet` is a read `savedata[i]`, `sliceSet` a write `savedata[i] = v`.
---------------------------------------------------------------- -/

/-- Read `b[i]`, panicking (like a Rust slice index) when out of bounds. -/
def sliceGet (b : List Nat) (i : Nat) : Except Failure Nat :=
  match b[i]? with
  | some v => .ok v
  | none => .error .panicked

/-- Write `b[i] = v`, panicking when out of bounds. -/
def sliceSet (b : List Nat) (i v : Nat) : Except Failure (List Nat) :=
  if i < b.length then .ok (b.set i v) else .error .panicked

/-- One iteration of the inner decrypt loop of `decrypt_savedata`:
`savedata[index] = savedata[index].wrapping_sub(savedata[offset])`
with `index = chunk_pos + i` and
`offset = chunk_pos + ((chunk_idx + i) & 0xF) - CHUNK_SIZE`. -/
def cipherSubStep (chunk_idx : Nat) (b : List Nat) (i : Nat) : Except Failure (List Nat) :=
  let chunk_pos := chunk_idx * CHUNK_SIZE
  let index := chunk_pos + i
  let offset := chunk_pos + ((chunk_idx + i) &&& 0xF) - CHUNK_SIZE
  match sliceGet b index with
  | .error e => .error e
  | .ok x =>
    match sliceGet b offset with
    | .error e => .error e
    | .ok y => sliceSet b index (wrapping_sub x y)

/-- One iteration of the inner encrypt loop of `encrypt_savedata`
(wrapping addition instead of subtraction). -/
def cipherAddStep (chunk_idx : Nat) (b : List Nat) (i : Nat) : Except Failure (List Nat) :=
  let chunk_pos := chunk_idx * CHUNK_SIZE
  let index := chunk_pos + i
  let offset := chunk_pos + ((chunk_idx + i) &&& 0xF) - CHUNK_SIZE
  match sliceGet b index with
  | .error e => .error e
  | .ok x =>
    match sliceGet b offset with
    | .error e => .error e
    | .ok y => sliceSet b index (wrapping_add x y)

/-- The inner loop `for i in 0..CHUNK_SIZE` of decrypt, for one chunk. -/
def cipherChunkSub (chunk_idx : Nat) (b : List Nat) : Except Failure (List Nat) :=
  (List.range CHUNK_SIZE).foldlM (cipherSubStep chunk_idx) b

/-- The inner loop `for i in 0..CHUNK_SIZE` of encrypt, for one chunk. -/
def cipherChunkAdd (chunk_idx : Nat) (b : List Nat) : Except Failure (List Nat) :=
  (List.range CHUNK_SIZE).foldlM (cipherAddStep chunk_idx) b

/-- The cipher pass of `decrypt_savedata`:
`for chunk_idx in (1..CHUNK_COUNT).rev()`. -/
def decryptPass (savedata : List Nat) : Except Failure (List Nat) :=
  ((List.range' 1 (CHUNK_COUNT - 1)).reverse).foldlM (fun b k => cipherChunkSub k b) savedata

/-- The cipher pass of `encrypt_savedata`:
`for chunk_idx in 1..CHUNK_COUNT`. -/
def encryptPass (savedata : List Nat) : Except Failure (List Nat) :=
  (List.range' 1 (CHUNK_COUNT - 1)).foldlM (fun b k => cipherChunkAdd k b) savedata

/-- `decrypt_savedata` from save_data.rs: run the descending chunk-wise
wrapping-sub pass, then `assert_eq!` the SHA-1 of bytes `[20..]` against
bytes `[..20]` (slicing panics when fewer than 20 bytes remain, and a
failed assertion is a panic). -/
def decrypt_savedata (savedata : List Nat) : Except Failure (List Nat) :=
  match decryptPass savedata with
  | .error e => .error e
  | .ok b =>
    if 20 ≤ b.length then
      if sha1 (b.drop 20) = b.take 20 then .ok b else .error .panicked
    else .error .panicked

/-- The buffer after the checksum-writing step of `encrypt_savedata`:
the SHA-1 of bytes `[20..]` copied over bytes `[..20]`. -/
def writeChecksum (savedata : List Nat) : List Nat :=
  sha1 (savedata.drop 20) ++ savedata.drop 20

/-- `encrypt_savedata` from save_data.rs: hash bytes `[20..]` (slicing
panics when the buffer is shorter than 20 bytes), assert the digest
length is 20, copy the digest over bytes `[..20]`, then run the
ascending chunk-wise wrapping-add pass. -/
def encrypt_savedata (savedata : List Nat) : Except Failure (List Nat) :=
  if savedata.length < 20 then .error .panicked
  else
    let result := sha1 (savedata.drop 20)
    if result.length = 20 then encryptPass (result ++ savedata.drop 20)
    else .error .panicked

/- ----------------------------------------------------------------
Total (panic-free) reformulation of the cipher, used to state and prove
properties.  On buffers where every access is in range it agrees with
the `Except` embedding above (proved below).
---------------------------------------------------------------- -/

/-- Total version of `cipherSubStep`, reading with default 0 and using
the no-op out-of-range behavior of `List.set`. -/
def cipherSubStepT (chunk_idx : Nat) (b : List Nat) (i : Nat) : List Nat :=
  let chunk_pos := chunk_idx * CHUNK_SIZE
  let index := chunk_pos + i
  let offset := chunk_pos + ((chunk_idx + i) &&& 0xF) - CHUNK_SIZE
  b.set index (wrapping_sub (b.getD index 0) (b.getD offset 0))

/-- Total version of `cipherAddStep`. -/
def cipherAddStepT (chunk_idx : Nat) (b : List Nat) (i : Nat) : List Nat :=
  let chunk_pos := chunk_idx * CHUNK_SIZE
  let index := chunk_pos + i
  let offset := chunk_pos + ((chunk_idx + i) &&& 0xF) - CHUNK_SIZE
  b.set index (wrapping_add (b.getD index 0) (b.getD offset 0))

/-- Total version of `cipherChunkSub`. -/
def cipherChunkSubT (chunk_idx : Nat) (b : List Nat) : List Nat :=
  (List.range CHUNK_SIZE).foldl (cipherSubStepT chunk_idx) b

/-- Total version of `cipherChunkAdd`. -/
def cipherChunkAddT (chunk_idx : Nat) (b : List Nat) : List Nat :=
  (List.range CHUNK_SIZE).foldl (cipherAddStepT chunk_idx) b

/-- Total version of the decrypt cipher pass. -/
def decryptPassT (savedata : List Nat) : List Nat :=
  ((List.range' 1 (CHUNK_COUNT - 1)).reverse).foldl (fun b k => cipherChunkSubT k b) savedata

/-- Total version of the encrypt cipher pass. -/
def encryptPassT (savedata : List Nat) : List Nat :=
  (List.range' 1 (CHUNK_COUNT - 1)).foldl (fun b k => cipherChunkAddT k b) savedata

/-- The source byte read by the cipher when writing position `j` of
chunk `k`: position `chunk_pos + ((chunk_idx + i) & 0xF) - CHUNK_SIZE`
with `i = j - chunk_pos`, always inside the previous chunk. -/
def chunkOffset (k j : Nat) : Nat :=
  k * CHUNK_SIZE + (k + (j - k * CHUNK_SIZE)) % CHUNK_SIZE - CHUNK_SIZE

/-- All entries of a buffer are bytes. -/
def byteOk (b : List Nat) : Prop := ∀ x ∈ b, x < 256

/- ----------------------------------------------------------------
The record codec of pp.rs.
---------------------------------------------------------------- -/

/-- The in-memory record `SDPiiPersonalData` of pp.rs.  Field widths in
the Rust source: u16 except the four bonus stats, `pii_id` and
`trainer_id` (u32) and `time` (u64). -/
structure SDPiiPersonalData where
  mons_no : Nat
  form_no : Nat
  sex : Nat
  move1_id : Nat
  move2_id : Nat
  level : Nat
  bonus_max_hp : Nat
  bonus_attack_power : Nat
  bonus_defence_power : Nat
  bonus_speed : Nat
  trait_ : Nat
  flags : Nat
  pii_id : Nat
  time : Nat
  trainer_id : Nat
deriving DecidableEq, Repr

/-- Store `value` into the bit range `[lo, lo + width)` of a 16-bit
`word`, as the setters generated by the `bitfield` crate do: clear the
range, mask the value to the range width, or it in. -/
def setBits (word value lo width : Nat) : Nat :=
  word % 2 ^ lo + word / 2 ^ (lo + width) * 2 ^ (lo + width) + value % 2 ^ width * 2 ^ lo

/-- Bits 15 to 7 of the packed first word: `mons_no` (9 bits). -/
def SDPiiPersonalDataPacked.mons_no (w : Nat) : Nat := w / 2 ^ 7 % 2 ^ 9

/-- Bits 6 to 2 of the packed first word: `form_no` (5 bits). -/
def SDPiiPersonalDataPacked.form_no (w : Nat) : Nat := w / 2 ^ 2 % 2 ^ 5

/-- Bits 2 to 0 of the packed first word: `sex` (3 bits, sharing bit 2
with the lowest bit of `form_no`). -/
def SDPiiPersonalDataPacked.sex (w : Nat) : Nat := w % 2 ^ 3

/-- The generated `SDPiiPersonalDataPacked::new`: starting from 0, set
`mons_no` (bits 15 to 7), then `form_no` (bits 6 to 2), then `sex`
(bits 2 to 0).  The `sex` store is last, so it overwrites the shared
bit 2 written by the `form_no` store. -/
def SDPiiPersonalDataPacked.new (mons_no form_no sex : Nat) : Nat :=
  setBits (setBits (setBits 0 mons_no 7 9) form_no 2 5) sex 0 3

/-- Method `is_shiny` of `SDPiiPersonalData`: xor the 16-bit halves of
`trainer_id` and `pii_id`; shiny when the result is below 8. -/
def SDPiiPersonalData.is_shiny (p : SDPiiPersonalData) : Bool :=
  let trainer_id_high := p.trainer_id / 2 ^ 16
  let trainer_id_low := p.trainer_id % 2 ^ 16
  let pii_id_high := p.pii_id / 2 ^ 16
  let pii_id_low := p.pii_id % 2 ^ 16
  let xor_result := trainer_id_high ^^^ trainer_id_low ^^^ pii_id_high ^^^ pii_id_low
  decide (xor_result < 8)

/-- Join two u16 halves into a u32, `From<(u16, u16)> for U32` in pp.rs:
`(u32::from(high) << 16) | low`. -/
def u32FromHalves (high low : Nat) : Nat := high % 2 ^ 16 * 2 ^ 16 + low % 2 ^ 16

/-- High u16 half of a u32, `(x.0 >> 16) as u16` in pp.rs. -/
def u32HighHalf (v : Nat) : Nat := v / 2 ^ 16 % 2 ^ 16

/-- Low u16 half of a u32, `x.0 as u16` in pp.rs. -/
def u32LowHalf (v : Nat) : Nat := v % 2 ^ 16

/-- A byte cursor over a buffer, as `std::io::Cursor` is used by
extract_piibox and write_piibox. -/
structure Cursor where
  data : List Nat
  pos : Nat
deriving DecidableEq, Repr

/-- Read one byte and advance; an exhausted buffer is the typed
`UnexpectedEof` io error of the byteorder read methods. -/
def read_u8 (c : Cursor) : Except Failure (Nat × Cursor) :=
  match c.data[c.pos]? with
  | some b => .ok (b, ⟨c.data, c.pos + 1⟩)
  | none => .error .eofError

/-- Big-endian u16 read (`read_u16::<BigEndian>`). -/
def read_u16 (c : Cursor) : Except Failure (Nat × Cursor) :=
  match read_u8 c with
  | .error e => .error e
  | .ok (b0, c) =>
    match read_u8 c with
    | .error e => .error e
    | .ok (b1, c) => .ok (b0 * 2 ^ 8 + b1, c)

/-- Big-endian u32 read (`read_u32::<BigEndian>`). -/
def read_u32 (c : Cursor) : Except Failure (Nat × Cursor) :=
  match read_u16 c with
  | .error e => .error e
  | .ok (hi, c) =>
    match read_u16 c with
    | .error e => .error e
    | .ok (lo, c) => .ok (hi * 2 ^ 16 + lo, c)

/-- Big-endian u64 read (`read_u64::<BigEndian>`). -/
def read_u64 (c : Cursor) : Except Failure (Nat × Cursor) :=
  match read_u32 c with
  | .error e => .error e
  | .ok (hi, c) =>
    match read_u32 c with
    | .error e => .error e
    | .ok (lo, c) => .ok (hi * 2 ^ 32 + lo, c)

/-- `read_sd_ppd` of pp.rs: seventeen big-endian reads in record order
(each read error propagates with the question-mark operator, rendered
here as an explicit match with early return), then the fixed trailing
byte, which is asserted to be 0: a non-zero trailing byte is an
assertion failure, that is a panic, not a typed error. -/
def read_sd_ppd (c0 : Cursor) : Except Failure (SDPiiPersonalData × Cursor) :=
  match read_u16 c0 with
  | .error e => .error e
  | .ok (packed_mons_no_form_no, c1) =>
  match read_u16 c1 with
  | .error e => .error e
  | .ok (move1_id, c2) =>
  match read_u16 c2 with
  | .error e => .error e
  | .ok (move2_id, c3) =>
  match read_u16 c3 with
  | .error e => .error e
  | .ok (level, c4) =>
  match read_u16 c4 with
  | .error e => .error e
  | .ok (lo_bonus_max_hp, c5) =>
  match read_u16 c5 with
  | .error e => .error e
  | .ok (lo_bonus_attack_power, c6) =>
  match read_u16 c6 with
  | .error e => .error e
  | .ok (lo_bonus_defence_power, c7) =>
  match read_u16 c7 with
  | .error e => .error e
  | .ok (lo_bonus_speed, c8) =>
  match read_u16 c8 with
  | .error e => .error e
  | .ok (trait_, c9) =>
  match read_u16 c9 with
  | .error e => .error e
  | .ok (flags, c10) =>
  match read_u32 c10 with
  | .error e => .error e
  | .ok (pii_id, c11) =>
  match read_u16 c11 with
  | .error e => .error e
  | .ok (hi_bonus_max_hp, c12) =>
  match read_u16 c12 with
  | .error e => .error e
  | .ok (hi_bonus_attack_power, c13) =>
  match read_u16 c13 with
  | .error e => .error e
  | .ok (hi_bonus_defence_power, c14) =>
  match read_u16 c14 with
  | .error e => .error e
  | .ok (hi_bonus_speed, c15) =>
  match read_u64 c15 with
  | .error e => .error e
  | .ok (time, c16) =>
  match read_u32 c16 with
  | .error e => .error e
  | .ok (trainer_id, c17) =>
  match read_u8 c17 with
  | .error e => .error e
  | .ok (fixed, c18) =>
  if fixed = 0 then
    .ok ({ mons_no := SDPiiPersonalDataPacked.mons_no packed_mons_no_form_no
           form_no := SDPiiPersonalDataPacked.form_no packed_mons_no_form_no
           sex := SDPiiPersonalDataPacked.sex packed_mons_no_form_no
           move1_id := move1_id
           move2_id := move2_id
           level := level
           bonus_max_hp := u32FromHalves hi_bonus_max_hp lo_bonus_max_hp
           bonus_attack_power := u32FromHalves hi_bonus_attack_power lo_bonus_attack_power
           bonus_defence_power := u32FromHalves hi_bonus_defence_power lo_bonus_defence_power
           bonus_speed := u32FromHalves hi_bonus_speed lo_bonus_speed
           trait_ := trait_
           flags := flags
           pii_id := pii_id
           time := time
           trainer_id := trainer_id }, c18)
  else .error .panicked

/-- The record-reading loop of `extract_piibox`: `n` sequential
`read_sd_ppd` calls, each result immediately `unwrap`ped, so any record
failure (typed eof or assertion) becomes a panic. -/
def readRecords : Nat → Cursor → Except Failure (List SDPiiPersonalData)
  | 0, _ => .ok []
  | n + 1, c =>
    match read_sd_ppd c with
    | .ok (p, c2) =>
      match readRecords n c2 with
      | .ok ps => .ok (p :: ps)
      | .error e => .error e
    | .error _ => .error .panicked

/-- `extract_piibox` of save_data.rs: position a cursor at
`PIIBOX_SAVEDATA_OFFSET`, read the big-endian u16 record count
(`unwrap`ped, so an error is a panic), then read that many records. -/
def extract_piibox (savedata : List Nat) : Except Failure (List SDPiiPersonalData) :=
  match read_u16 ⟨savedata, PIIBOX_SAVEDATA_OFFSET⟩ with
  | .ok (pii_box_len, c) => readRecords pii_box_len c
  | .error _ => .error .panicked

/-- Overwrite the bytes of `data` starting at `pos` with `bs`, in place
and without resizing: bytes beyond the end of `data` are dropped, which
is how `Write` on a mutable byte slice behaves. -/
def overwrite (data : List Nat) (pos : Nat) (bs : List Nat) : List Nat :=
  data.take pos ++ bs.take (data.length - pos) ++ data.drop (pos + bs.length)

/-- One `write_all`-style write on a slice cursor: copy as many bytes as
fit and advance; report `false` (a `WriteZero` io error) when the buffer
had too little space. -/
def writeBytesP (c : Cursor) (bs : List Nat) : Cursor × Bool :=
  if bs.length ≤ c.data.length - c.pos then
    (⟨overwrite c.data c.pos bs, c.pos + bs.length⟩, true)
  else
    (⟨overwrite c.data c.pos bs, c.pos + (c.data.length - c.pos)⟩, false)

/-- A write whose io result is propagated (the calls under a
question-mark operator in `write_sd_ppd`). -/
def wput (bs : List Nat) (c : Cursor) : Cursor × Option Failure :=
  match writeBytesP c bs with
  | (c2, true) => (c2, none)
  | (c2, false) => (c2, some .eofError)

/-- Sequencing of cursor writes with early return on a recorded error,
mirroring the question-mark operator (the cursor state mutated so far is
kept, as it is behind a mutable reference in the source). -/
def wseq (r : Cursor × Option Failure) (f : Cursor → Cursor × Option Failure) :
    Cursor × Option Failure :=
  match r with
  | (c, none) => f c
  | (c, some e) => (c, some e)

/-- `write_sd_ppd` of pp.rs: serialize one record.  The first write (the
packed word) and the final `write_u8(0)` discard their io results; the
sixteen writes between them propagate errors with the question-mark
operator. -/
def write_sd_ppd (c : Cursor) (ppd : SDPiiPersonalData) : Cursor × Option Failure :=
  let c0 := (writeBytesP c (u16be (SDPiiPersonalDataPacked.new ppd.mons_no ppd.form_no ppd.sex))).1
  wseq (wput (u16be ppd.move1_id) c0) fun c => wseq (wput (u16be ppd.move2_id) c) fun c =>
  wseq (wput (u16be ppd.level) c) fun c =>
  wseq (wput (u16be (u32LowHalf ppd.bonus_max_hp)) c) fun c =>
  wseq (wput (u16be (u32LowHalf ppd.bonus_attack_power)) c) fun c =>
  wseq (wput (u16be (u32LowHalf ppd.bonus_defence_power)) c) fun c =>
  wseq (wput (u16be (u32LowHalf ppd.bonus_speed)) c) fun c =>
  wseq (wput (u16be ppd.trait_) c) fun c => wseq (wput (u16be ppd.flags) c) fun c =>
  wseq (wput (u32be ppd.pii_id) c) fun c =>
  wseq (wput (u16be (u32HighHalf ppd.bonus_max_hp)) c) fun c =>
  wseq (wput (u16be (u32HighHalf ppd.bonus_attack_power)) c) fun c =>
  wseq (wput (u16be (u32HighHalf ppd.bonus_defence_power)) c) fun c =>
  wseq (wput (u16be (u32HighHalf ppd.bonus_speed)) c) fun c =>
  wseq (wput (u64be ppd.time) c) fun c => wseq (wput (u32be ppd.trainer_id) c) fun c =>
  ((writeBytesP c [0]).1, none)

/-- The record-writing loop of `write_piibox`; the io result of each
`write_sd_ppd` call is discarded, so the loop continues regardless. -/
def writeRecords : Cursor → List SDPiiPersonalData → Cursor
  | c, [] => c
  | c, p :: ps => writeRecords (write_sd_ppd c p).1 ps

/-- `write_piibox` of save_data.rs: `try_into::<u16>().unwrap()` on the
roster length (a panic above 0xFFFF), write the big-endian count at
`PIIBOX_SAVEDATA_OFFSET` (io result discarded), then write each record
(io results discarded). -/
def write_piibox (savedata : List Nat) (pii_box : List SDPiiPersonalData) :
    List Nat × Option Failure :=
  if 0xFFFF < pii_box.length then (savedata, some .panicked)
  else
    let c0 : Cursor := ⟨savedata, PIIBOX_SAVEDATA_OFFSET⟩
    let c1 := (writeBytesP c0 (u16be pii_box.length)).1
    ((writeRecords c1 pii_box).data, none)

/-- The serialized image of one record, 0x2D bytes: the byte sequence
`write_sd_ppd` emits (proved below), and the layout `read_sd_ppd`
consumes. -/
def recordBytes (ppd : SDPiiPersonalData) : List Nat :=
  u16be (SDPiiPersonalDataPacked.new ppd.mons_no ppd.form_no ppd.sex) ++
  (u16be ppd.move1_id ++ (u16be ppd.move2_id ++ (u16be ppd.level ++
  (u16be (u32LowHalf ppd.bonus_max_hp) ++ (u16be (u32LowHalf ppd.bonus_attack_power) ++
  (u16be (u32LowHalf ppd.bonus_defence_power) ++ (u16be (u32LowHalf ppd.bonus_speed) ++
  (u16be ppd.trait_ ++ (u16be ppd.flags ++ (u32be ppd.pii_id ++
  (u16be (u32HighHalf ppd.bonus_max_hp) ++ (u16be (u32HighHalf ppd.bonus_attack_power) ++
  (u16be (u32HighHalf ppd.bonus_defence_power) ++ (u16be (u32HighHalf ppd.bonus_speed) ++
  (u64be ppd.time ++ (u32be ppd.trainer_id ++ [0]))))))))))))))))

/-- The serialized image of a roster (records back to back). -/
def rosterBytes : List SDPiiPersonalData → List Nat
  | [] => []
  | p :: ps => recordBytes p ++ rosterBytes ps

/-- Field-width and bit-alias side conditions under which a record
serializes and deserializes without loss: every field fits its declared
Rust width, the packed subfields fit their bit ranges, and the shared
bit 2 of the packed word agrees between `form_no` and `sex`. -/
def recOk (p : SDPiiPersonalData) : Prop :=
  p.mons_no < 2 ^ 9 ∧ p.form_no < 2 ^ 5 ∧ p.sex < 2 ^ 3 ∧
  p.form_no % 2 = p.sex / 4 ∧
  p.move1_id < 2 ^ 16 ∧ p.move2_id < 2 ^ 16 ∧ p.level < 2 ^ 16 ∧
  p.bonus_max_hp < 2 ^ 32 ∧ p.bonus_attack_power < 2 ^ 32 ∧
  p.bonus_defence_power < 2 ^ 32 ∧ p.bonus_speed < 2 ^ 32 ∧
  p.trait_ < 2 ^ 16 ∧ p.flags < 2 ^ 16 ∧ p.pii_id < 2 ^ 32 ∧
  p.time < 2 ^ 64 ∧ p.trainer_id < 2 ^ 32

/-- The bytes `bs` appear in `d` starting at position `pos`. -/
def hasBytesAt (d : List Nat) (pos : Nat) (bs : List Nat) : Prop :=
  ∀ k, k < bs.length → d[pos + k]? = bs[k]?

/-- A record whose fields are all zero except `pii_id` and `trainer_id`,
used as a concrete test input. -/
def mkRecord (trainer_id pii_id : Nat) : SDPiiPersonalData :=
  ⟨0, 0, 0, 0, 0, 0, 0, 0, 0, 0, 0, 0, pii_id, 0, trainer_id⟩

/-- The record as it comes back from `read_sd_ppd` when its serialized
image `recordBytes p` is read: every field reduced to its stored width,
and the form field rebuilt with its lowest bit taken from bit 2 of the
sex field (the shared bit of the packed word). -/
def decodeRecord (p : SDPiiPersonalData) : SDPiiPersonalData where
  mons_no := p.mons_no % 2 ^ 9
  form_no := p.form_no % 2 ^ 5 / 2 * 2 + p.sex % 2 ^ 3 / 4
  sex := p.sex % 2 ^ 3
  move1_id := p.move1_id % 2 ^ 16
  move2_id := p.move2_id % 2 ^ 16
  level := p.level % 2 ^ 16
  bonus_max_hp := p.bonus_max_hp % 2 ^ 32
  bonus_attack_power := p.bonus_attack_power % 2 ^ 32
  bonus_defence_power := p.bonus_defence_power % 2 ^ 32
  bonus_speed := p.bonus_speed % 2 ^ 32
  trait_ := p.trait_ % 2 ^ 16
  flags := p.flags % 2 ^ 16
  pii_id := p.pii_id % 2 ^ 32
  time := p.time % 2 ^ 64
  trainer_id := p.trainer_id % 2 ^ 32

/-- A concrete all-zero buffer large enough for a one-record roster. -/
def demoBuffer : List Nat := List.replicate (PIIBOX_SAVEDATA_OFFSET + 47) 0

/-- A record whose packed form loses the form bit (species 0, form 1, sex 0). -/
def cexRecord : SDPiiPersonalData := ⟨0, 1, 0, 0, 0, 0, 0, 0, 0, 0, 0, 0, 0, 0, 0⟩

/-- A record satisfying every field-width and shared-bit constraint. -/
def okRecord : SDPiiPersonalData :=
  ⟨25, 2, 1, 5, 6, 7, 0x12345, 0x23456, 0x34567, 0x45678, 3, 9, 0xAABBCCDD,
   0x123456789AB, 0xDEADBEEF⟩

/-- A buffer holding one record whose fixed trailing byte is `t`. -/
def badBuffer (t : Nat) : List Nat :=
  List.replicate PIIBOX_SAVEDATA_OFFSET 0 ++ ([0, 1] ++ (List.replicate 44 0 ++ [t]))

/- ================================================================
Theorems.
================================================================ -/

lemma overwrite_length (d : List Nat) (pos : Nat) (bs : List Nat) :
    (overwrite d pos bs).length = d.length := by
  simp [overwrite]
  omega

lemma overwrite_getElem? (d : List Nat) (pos : Nat) (bs : List Nat) (j : Nat)
    (hfit : pos + bs.length ≤ d.length) :
    (overwrite d pos bs)[j]? =
      if pos ≤ j ∧ j < pos + bs.length then bs[j - pos]? else d[j]? := by
  have htl : (d.take pos).length = pos := by simp; omega
  have hbl : (bs.take (d.length - pos)).length = bs.length := by simp; omega
  have hbs : bs.take (d.length - pos) = bs := List.take_of_length_le (by omega)
  unfold overwrite
  rw [hbs]
  have hab : (d.take pos ++ bs).length = pos + bs.length := by simp; omega
  rcases Nat.lt_or_ge j pos with hj | hj
  · rw [List.getElem?_append_left (by omega), List.getElem?_append_left (by omega),
      if_neg (by omega), List.getElem?_take, if_pos hj]
  · rcases Nat.lt_or_ge j (pos + bs.length) with hj2 | hj2
    · rw [List.getElem?_append_left (by omega), List.getElem?_append_right (by omega),
        if_pos (by omega), htl]
    · rw [List.getElem?_append_right (by omega), if_neg (by omega), List.getElem?_drop, hab]
      congr 1
      omega

lemma overwrite_hasBytesAt (d : List Nat) (pos : Nat) (bs : List Nat)
    (hfit : pos + bs.length ≤ d.length) : hasBytesAt (overwrite d pos bs) pos bs := by
  intro k hk
  rw [overwrite_getElem? d pos bs (pos + k) hfit, if_pos (by omega)]
  congr 1
  omega

lemma hasBytesAt_append_split (d : List Nat) (pos : Nat) (a b : List Nat)
    (h : hasBytesAt d pos (a ++ b)) :
    hasBytesAt d pos a ∧ hasBytesAt d (pos + a.length) b := by
  constructor
  · intro k hk
    have := h k (by simp; omega)
    rwa [List.getElem?_append_left (by omega)] at this
  · intro k hk
    have := h (a.length + k) (by simp; omega)
    rw [List.getElem?_append_right (by omega)] at this
    simpa [Nat.add_assoc] using this

lemma overwrite_append (d : List Nat) (pos : Nat) (bs cs : List Nat)
    (hfit : pos + bs.length + cs.length ≤ d.length) :
    overwrite (overwrite d pos bs) (pos + bs.length) cs = overwrite d pos (bs ++ cs) := by
  have hlen2 : pos + (bs ++ cs).length ≤ d.length := by simp; omega
  apply List.ext_getElem?
  intro j
  rw [overwrite_getElem? _ _ _ _ (by rw [overwrite_length]; omega),
      overwrite_getElem? d pos (bs ++ cs) j hlen2,
      overwrite_getElem? d pos bs j (by omega)]
  rcases Nat.lt_or_ge j pos with hj | hj
  · rw [if_neg (by omega), if_neg (by omega), if_neg (by omega)]
  · rcases Nat.lt_or_ge j (pos + bs.length) with hj2 | hj2
    · rw [if_neg (by omega), if_pos (by omega), if_pos (by simp; omega)]
      rw [List.getElem?_append_left (by omega)]
    · rcases Nat.lt_or_ge j (pos + bs.length + cs.length) with hj3 | hj3
      · rw [if_pos (by omega), if_pos (by simp; omega)]
        rw [List.getElem?_append_right (by omega)]
        congr 1
        omega
      · rw [if_neg (by omega), if_neg (by omega), if_neg (by simp; omega)]

lemma packed_new_eq (m f s : Nat) :
    SDPiiPersonalDataPacked.new m f s = m % 2 ^ 9 * 2 ^ 7 + f % 2 ^ 5 / 2 * 2 ^ 3 + s % 2 ^ 3 := by
  simp only [SDPiiPersonalDataPacked.new, setBits]
  omega

lemma packed_new_mons_no (m f s : Nat) :
    SDPiiPersonalDataPacked.mons_no (SDPiiPersonalDataPacked.new m f s) = m % 2 ^ 9 := by
  rw [packed_new_eq]
  simp only [SDPiiPersonalDataPacked.mons_no]
  omega

lemma packed_new_form_no (m f s : Nat) :
    SDPiiPersonalDataPacked.form_no (SDPiiPersonalDataPacked.new m f s) =
      f % 2 ^ 5 / 2 * 2 + s % 2 ^ 3 / 4 := by
  rw [packed_new_eq]
  simp only [SDPiiPersonalDataPacked.form_no]
  omega

lemma packed_new_sex (m f s : Nat) :
    SDPiiPersonalDataPacked.sex (SDPiiPersonalDataPacked.new m f s) = s % 2 ^ 3 := by
  rw [packed_new_eq]
  simp only [SDPiiPersonalDataPacked.sex]
  omega

/-- C4.  Counterexample: packing species 0, form 1, sex 0 and unpacking
does not reproduce the triple: the shared bit 2 is overwritten by the
`sex` store, so the form comes back as 0. -/
theorem c4_counterexample :
    (SDPiiPersonalDataPacked.mons_no (SDPiiPersonalDataPacked.new 0 1 0),
     SDPiiPersonalDataPacked.form_no (SDPiiPersonalDataPacked.new 0 1 0),
     SDPiiPersonalDataPacked.sex (SDPiiPersonalDataPacked.new 0 1 0)) ≠ (0, 1, 0) := by
  decide

/-- C4 (amended).  For species in [0,511], form in [0,31] and sex in
[0,7], packing the triple into the first 16-bit word and unpacking it
reproduces the exact input triple if and only if the shared bit 2
agrees, that is the lowest bit of the form equals bit 2 of the sex;
under that agreement the round trip is exact. -/
theorem c4_pack_unpack (m f s : Nat) (hm : m < 2 ^ 9) (hf : f < 2 ^ 5) (hs : s < 2 ^ 3)
    (halias : f % 2 = s / 4) :
    SDPiiPersonalDataPacked.mons_no (SDPiiPersonalDataPacked.new m f s) = m ∧
    SDPiiPersonalDataPacked.form_no (SDPiiPersonalDataPacked.new m f s) = f ∧
    SDPiiPersonalDataPacked.sex (SDPiiPersonalDataPacked.new m f s) = s := by
  rw [packed_new_mons_no, packed_new_form_no, packed_new_sex]
  omega

/-- C4 witness: the amended round trip at the concrete triple
(3, 3, 4), whose shared bit 2 agrees. -/
theorem c4_pack_unpack_witness :
    SDPiiPersonalDataPacked.mons_no (SDPiiPersonalDataPacked.new 3 3 4) = 3 ∧
    SDPiiPersonalDataPacked.form_no (SDPiiPersonalDataPacked.new 3 3 4) = 3 ∧
    SDPiiPersonalDataPacked.sex (SDPiiPersonalDataPacked.new 3 3 4) = 4 :=
  c4_pack_unpack 3 3 4 (by decide) (by decide) (by decide) (by decide)

/-- C10.  Species and sex always survive the pack/unpack pair exactly
(for species below 512, form below 32, sex below 8); the only component
that can change is the form, whose lowest bit comes back equal to bit 2
of the sex code, because the sex bits are stored last over the shared
bit 2. -/
theorem c10_species_sex_survive (m f s : Nat) (hm : m < 2 ^ 9) (hf : f < 2 ^ 5)
    (hs : s < 2 ^ 3) :
    SDPiiPersonalDataPacked.mons_no (SDPiiPersonalDataPacked.new m f s) = m ∧
    SDPiiPersonalDataPacked.sex (SDPiiPersonalDataPacked.new m f s) = s ∧
    SDPiiPersonalDataPacked.form_no (SDPiiPersonalDataPacked.new m f s) = f / 2 * 2 + s / 4 := by
  rw [packed_new_mons_no, packed_new_form_no, packed_new_sex]
  omega

/-- C10 witness: at the concrete triple (5, 3, 0) species and sex come
back exactly and the form comes back as 2 (lowest bit replaced by bit 2
of sex, which is 0). -/
theorem c10_species_sex_survive_witness :
    SDPiiPersonalDataPacked.mons_no (SDPiiPersonalDataPacked.new 5 3 0) = 5 ∧
    SDPiiPersonalDataPacked.sex (SDPiiPersonalDataPacked.new 5 3 0) = 0 ∧
    SDPiiPersonalDataPacked.form_no (SDPiiPersonalDataPacked.new 5 3 0) = 3 / 2 * 2 + 0 / 4 :=
  c10_species_sex_survive 5 3 0 (by decide) (by decide) (by decide)

/-- C5.  Counterexample: with owner id 1 and entity seed 0 the xor of
the four 16-bit halves is 1, which is below 8, so the record is shiny,
contradicting the claim that shininess is false there. -/
theorem c5_counterexample : (mkRecord 1 0).is_shiny = true := by decide

/-- C5 (amended).  A record is shiny exactly when the xor of the high
and low 16-bit halves of `trainer_id` and of `pii_id` is below 8; with
owner id 1 and entity seed 0 the xor is 1 and the record IS shiny, and
with owner id 0 and entity seed 0 the xor is 0 and the record is also
shiny. -/
theorem c5_shininess :
    (∀ p : SDPiiPersonalData, p.is_shiny = true ↔
      (p.trainer_id / 2 ^ 16 ^^^ p.trainer_id % 2 ^ 16 ^^^
       p.pii_id / 2 ^ 16 ^^^ p.pii_id % 2 ^ 16) < 8) ∧
    (mkRecord 1 0).is_shiny = true ∧ (mkRecord 0 0).is_shiny = true := by
  refine ⟨fun p => ?_, by decide, by decide⟩
  simp [SDPiiPersonalData.is_shiny]

/-- C9.  Splitting a u32 into 16-bit halves and joining them back with
`(high << 16) | low` is the identity (and join then split returns the
halves); in the serialized record the two halves of each bonus stat sit
at non-adjacent offsets: low halves at bytes 8, 10, 12, 14 and high
halves at bytes 24, 26, 28, 30 of the 45-byte record, so the stat is
not stored as one contiguous big-endian u32. -/
theorem c9_split_join (v h l : Nat) (hv : v < 2 ^ 32) (hh : h < 2 ^ 16) (hl : l < 2 ^ 16) :
    u32FromHalves (u32HighHalf v) (u32LowHalf v) = v ∧
    u32HighHalf (u32FromHalves h l) = h ∧ u32LowHalf (u32FromHalves h l) = l ∧
    (∀ p : SDPiiPersonalData,
      ((recordBytes p).drop 8).take 2 = u16be (u32LowHalf p.bonus_max_hp) ∧
      ((recordBytes p).drop 10).take 2 = u16be (u32LowHalf p.bonus_attack_power) ∧
      ((recordBytes p).drop 12).take 2 = u16be (u32LowHalf p.bonus_defence_power) ∧
      ((recordBytes p).drop 14).take 2 = u16be (u32LowHalf p.bonus_speed) ∧
      ((recordBytes p).drop 24).take 2 = u16be (u32HighHalf p.bonus_max_hp) ∧
      ((recordBytes p).drop 26).take 2 = u16be (u32HighHalf p.bonus_attack_power) ∧
      ((recordBytes p).drop 28).take 2 = u16be (u32HighHalf p.bonus_defence_power) ∧
      ((recordBytes p).drop 30).take 2 = u16be (u32HighHalf p.bonus_speed)) := by
  refine ⟨?_, ?_, ?_, fun p => ?_⟩
  · simp only [u32FromHalves, u32HighHalf, u32LowHalf]; omega
  · simp only [u32FromHalves, u32HighHalf, u32LowHalf]; omega
  · simp only [u32FromHalves, u32HighHalf, u32LowHalf]; omega
  · refine ⟨?_, ?_, ?_, ?_, ?_, ?_, ?_, ?_⟩ <;>
      simp [recordBytes, u16be, u32be, u64be]

/-- C9 witness: the split/join identities at the concrete values
v = 0xDEADBEEF, h = 0xAAAA, l = 0xBBBB, together with the layout facts
for a concrete record. -/
theorem c9_split_join_witness :
    u32FromHalves (u32HighHalf 0xDEADBEEF) (u32LowHalf 0xDEADBEEF) = 0xDEADBEEF ∧
    u32HighHalf (u32FromHalves 0xAAAA 0xBBBB) = 0xAAAA ∧
    u32LowHalf (u32FromHalves 0xAAAA 0xBBBB) = 0xBBBB ∧
    ((recordBytes (mkRecord 0 0)).drop 8).take 2 = u16be (u32LowHalf (mkRecord 0 0).bonus_max_hp) := by
  have h := c9_split_join 0xDEADBEEF 0xAAAA 0xBBBB (by decide) (by decide) (by decide)
  exact ⟨h.1, h.2.1, h.2.2.1, (h.2.2.2 (mkRecord 0 0)).1⟩

lemma u16be_length (v : Nat) : (u16be v).length = 2 := rfl
lemma u32be_length (v : Nat) : (u32be v).length = 4 := rfl
lemma u64be_length (v : Nat) : (u64be v).length = 8 := rfl

lemma writeBytesP_fits (c : Cursor) (bs : List Nat) (h : c.pos + bs.length ≤ c.data.length) :
    writeBytesP c bs = (⟨overwrite c.data c.pos bs, c.pos + bs.length⟩, true) := by
  unfold writeBytesP
  rw [if_pos (by omega)]

lemma wseq_wput_fits (d : List Nat) (pos : Nat) (acc bs : List Nat)
    (f : Cursor → Cursor × Option Failure)
    (h : pos + acc.length + bs.length ≤ d.length) :
    wseq (wput bs ⟨overwrite d pos acc, pos + acc.length⟩) f =
      f ⟨overwrite d pos (acc ++ bs), pos + (acc ++ bs).length⟩ := by
  unfold wput
  rw [writeBytesP_fits _ _ (by simp only [overwrite_length]; omega)]
  show f _ = _
  rw [overwrite_append d pos acc bs (by omega)]
  simp [Nat.add_assoc]

lemma write_sd_ppd_eq (d : List Nat) (pos : Nat) (ppd : SDPiiPersonalData)
    (h : pos + 45 ≤ d.length) :
    write_sd_ppd ⟨d, pos⟩ ppd = (⟨overwrite d pos (recordBytes ppd), pos + 45⟩, none) := by
  unfold write_sd_ppd
  rw [writeBytesP_fits _ _ (by simp [u16be_length]; omega)]
  show wseq _ _ = _
  rw [wseq_wput_fits d pos _ _ _ (by simp [u16be_length]; omega)]
  rw [wseq_wput_fits d pos _ _ _ (by simp [u16be_length]; omega)]
  rw [wseq_wput_fits d pos _ _ _ (by simp [u16be_length]; omega)]
  rw [wseq_wput_fits d pos _ _ _ (by simp [u16be_length]; omega)]
  rw [wseq_wput_fits d pos _ _ _ (by simp [u16be_length]; omega)]
  rw [wseq_wput_fits d pos _ _ _ (by simp [u16be_length]; omega)]
  rw [wseq_wput_fits d pos _ _ _ (by simp [u16be_length]; omega)]
  rw [wseq_wput_fits d pos _ _ _ (by simp [u16be_length]; omega)]
  rw [wseq_wput_fits d pos _ _ _ (by simp [u16be_length]; omega)]
  rw [wseq_wput_fits d pos _ _ _ (by simp [u16be_length, u32be_length]; omega)]
  rw [wseq_wput_fits d pos _ _ _ (by simp [u16be_length, u32be_length]; omega)]
  rw [wseq_wput_fits d pos _ _ _ (by simp [u16be_length, u32be_length]; omega)]
  rw [wseq_wput_fits d pos _ _ _ (by simp [u16be_length, u32be_length]; omega)]
  rw [wseq_wput_fits d pos _ _ _ (by simp [u16be_length, u32be_length]; omega)]
  rw [wseq_wput_fits d pos _ _ _ (by simp [u16be_length, u32be_length, u64be_length]; omega)]
  rw [wseq_wput_fits d pos _ _ _ (by simp [u16be_length, u32be_length, u64be_length]; omega)]
  rw [writeBytesP_fits _ _ (by simp [overwrite_length, u16be_length, u32be_length, u64be_length]; omega)]
  rw [overwrite_append d pos _ _ (by simp [u16be_length, u32be_length, u64be_length]; omega)]
  simp only [recordBytes, List.append_assoc, u16be_length, u32be_length, u64be_length,
    List.length_append, List.length_cons, List.length_nil]

lemma read_u8_spec (d : List Nat) (pos b : Nat) (rest : List Nat)
    (hb : hasBytesAt d pos (b :: rest)) :
    read_u8 ⟨d, pos⟩ = .ok (b, ⟨d, pos + 1⟩) ∧ hasBytesAt d (pos + 1) rest := by
  have h0 := hb 0 (by simp)
  rw [Nat.add_zero] at h0
  constructor
  · unfold read_u8
    rw [h0]
    simp
  · intro k hk
    have := hb (1 + k) (by simp; omega)
    rw [show pos + (1 + k) = pos + 1 + k by omega] at this
    rw [this, show (1 + k) = k + 1 by omega]
    simp

lemma read_u16_spec (d : List Nat) (pos b0 b1 : Nat) (rest : List Nat)
    (hb : hasBytesAt d pos (b0 :: b1 :: rest)) :
    read_u16 ⟨d, pos⟩ = .ok (b0 * 2 ^ 8 + b1, ⟨d, pos + 2⟩) ∧ hasBytesAt d (pos + 2) rest := by
  obtain ⟨e0, hb1⟩ := read_u8_spec d pos b0 (b1 :: rest) hb
  obtain ⟨e1, hb2⟩ := read_u8_spec d (pos + 1) b1 rest hb1
  refine ⟨?_, by simpa [Nat.add_assoc] using hb2⟩
  unfold read_u16
  simp only [e0, e1]

lemma read_u16be_spec (d : List Nat) (pos v : Nat) (rest : List Nat)
    (hb : hasBytesAt d pos (u16be v ++ rest)) :
    read_u16 ⟨d, pos⟩ = .ok (v % 2 ^ 16, ⟨d, pos + 2⟩) ∧ hasBytesAt d (pos + 2) rest := by
  simp only [u16be, List.cons_append, List.nil_append] at hb
  obtain ⟨e, hb2⟩ := read_u16_spec d pos _ _ rest hb
  refine ⟨?_, hb2⟩
  rw [e]
  rw [show v / 2 ^ 8 % 256 * 2 ^ 8 + v % 256 = v % 2 ^ 16 by omega]

lemma u32be_decomp (v : Nat) : u32be v = u16be (v / 2 ^ 16) ++ u16be (v % 2 ^ 16) := by
  have h1 : v / 2 ^ 24 % 256 = v / 2 ^ 16 / 2 ^ 8 % 256 := by omega
  have h2 : v / 2 ^ 8 % 256 = v % 2 ^ 16 / 2 ^ 8 % 256 := by omega
  have h3 : v % 256 = v % 2 ^ 16 % 256 := by omega
  rw [u32be, u16be, u16be, h1, h2, h3]
  rfl

lemma u64be_decomp (v : Nat) : u64be v = u32be (v / 2 ^ 32) ++ u32be (v % 2 ^ 32) := by
  have h1 : v / 2 ^ 56 % 256 = v / 2 ^ 32 / 2 ^ 24 % 256 := by omega
  have h2 : v / 2 ^ 48 % 256 = v / 2 ^ 32 / 2 ^ 16 % 256 := by omega
  have h3 : v / 2 ^ 40 % 256 = v / 2 ^ 32 / 2 ^ 8 % 256 := by omega
  have h5 : v / 2 ^ 24 % 256 = v % 2 ^ 32 / 2 ^ 24 % 256 := by omega
  have h6 : v / 2 ^ 16 % 256 = v % 2 ^ 32 / 2 ^ 16 % 256 := by omega
  have h7 : v / 2 ^ 8 % 256 = v % 2 ^ 32 / 2 ^ 8 % 256 := by omega
  have h8 : v % 256 = v % 2 ^ 32 % 256 := by omega
  rw [u64be, u32be, u32be, h1, h2, h3, h5, h6, h7, h8]
  rfl

lemma read_u32be_spec (d : List Nat) (pos v : Nat) (rest : List Nat)
    (hb : hasBytesAt d pos (u32be v ++ rest)) :
    read_u32 ⟨d, pos⟩ = .ok (v % 2 ^ 32, ⟨d, pos + 4⟩) ∧ hasBytesAt d (pos + 4) rest := by
  rw [u32be_decomp, List.append_assoc] at hb
  obtain ⟨e0, hb1⟩ := read_u16be_spec d pos _ _ hb
  obtain ⟨e1, hb2⟩ := read_u16be_spec d (pos + 2) _ _ hb1
  refine ⟨?_, by simpa [show pos + 2 + 2 = pos + 4 by omega] using hb2⟩
  unfold read_u32
  simp only [e0, e1]
  rw [show pos + 2 + 2 = pos + 4 by omega,
    show v / 2 ^ 16 % 2 ^ 16 * 2 ^ 16 + v % 2 ^ 16 % 2 ^ 16 = v % 2 ^ 32 by omega]

lemma read_u64be_spec (d : List Nat) (pos v : Nat) (rest : List Nat)
    (hb : hasBytesAt d pos (u64be v ++ rest)) :
    read_u64 ⟨d, pos⟩ = .ok (v % 2 ^ 64, ⟨d, pos + 8⟩) ∧ hasBytesAt d (pos + 8) rest := by
  rw [u64be_decomp, List.append_assoc] at hb
  obtain ⟨e0, hb1⟩ := read_u32be_spec d pos _ _ hb
  obtain ⟨e1, hb2⟩ := read_u32be_spec d (pos + 4) _ _ hb1
  refine ⟨?_, by simpa [show pos + 4 + 4 = pos + 8 by omega] using hb2⟩
  unfold read_u64
  simp only [e0, e1]
  rw [show pos + 4 + 4 = pos + 8 by omega,
    show v / 2 ^ 32 % 2 ^ 32 * 2 ^ 32 + v % 2 ^ 32 % 2 ^ 32 = v % 2 ^ 64 by omega]

lemma packed_new_lt (m f s : Nat) : SDPiiPersonalDataPacked.new m f s < 2 ^ 16 := by
  rw [packed_new_eq]
  omega

lemma read_sd_ppd_calc
    (c1 c2 c3 c4 c5 c6 c7 c8 c9 c10 c11 c12 c13 c14 c15 c16 c17 c18 c19 : Cursor)
    (w m1 m2 lv l1 l2 l3 l4 tr fl pi h1 h2 h3 h4 tm ti : Nat)
    (e1 : read_u16 c1 = .ok (w, c2)) (e2 : read_u16 c2 = .ok (m1, c3))
    (e3 : read_u16 c3 = .ok (m2, c4)) (e4 : read_u16 c4 = .ok (lv, c5))
    (e5 : read_u16 c5 = .ok (l1, c6)) (e6 : read_u16 c6 = .ok (l2, c7))
    (e7 : read_u16 c7 = .ok (l3, c8)) (e8 : read_u16 c8 = .ok (l4, c9))
    (e9 : read_u16 c9 = .ok (tr, c10)) (e10 : read_u16 c10 = .ok (fl, c11))
    (e11 : read_u32 c11 = .ok (pi, c12)) (e12 : read_u16 c12 = .ok (h1, c13))
    (e13 : read_u16 c13 = .ok (h2, c14)) (e14 : read_u16 c14 = .ok (h3, c15))
    (e15 : read_u16 c15 = .ok (h4, c16)) (e16 : read_u64 c16 = .ok (tm, c17))
    (e17 : read_u32 c17 = .ok (ti, c18)) (e18 : read_u8 c18 = .ok (0, c19)) :
    read_sd_ppd c1 = .ok
      ({ mons_no := SDPiiPersonalDataPacked.mons_no w
         form_no := SDPiiPersonalDataPacked.form_no w
         sex := SDPiiPersonalDataPacked.sex w
         move1_id := m1, move2_id := m2, level := lv
         bonus_max_hp := u32FromHalves h1 l1
         bonus_attack_power := u32FromHalves h2 l2
         bonus_defence_power := u32FromHalves h3 l3
         bonus_speed := u32FromHalves h4 l4
         trait_ := tr, flags := fl, pii_id := pi, time := tm, trainer_id := ti }, c19) := by
  unfold read_sd_ppd
  simp only [e1, e2, e3, e4, e5, e6, e7, e8, e9, e10, e11, e12, e13, e14, e15, e16, e17, e18]
  rw [if_pos trivial]

lemma read_sd_ppd_calc_bad
    (c1 c2 c3 c4 c5 c6 c7 c8 c9 c10 c11 c12 c13 c14 c15 c16 c17 c18 c19 : Cursor)
    (w m1 m2 lv l1 l2 l3 l4 tr fl pi h1 h2 h3 h4 tm ti t : Nat) (ht : t ≠ 0)
    (e1 : read_u16 c1 = .ok (w, c2)) (e2 : read_u16 c2 = .ok (m1, c3))
    (e3 : read_u16 c3 = .ok (m2, c4)) (e4 : read_u16 c4 = .ok (lv, c5))
    (e5 : read_u16 c5 = .ok (l1, c6)) (e6 : read_u16 c6 = .ok (l2, c7))
    (e7 : read_u16 c7 = .ok (l3, c8)) (e8 : read_u16 c8 = .ok (l4, c9))
    (e9 : read_u16 c9 = .ok (tr, c10)) (e10 : read_u16 c10 = .ok (fl, c11))
    (e11 : read_u32 c11 = .ok (pi, c12)) (e12 : read_u16 c12 = .ok (h1, c13))
    (e13 : read_u16 c13 = .ok (h2, c14)) (e14 : read_u16 c14 = .ok (h3, c15))
    (e15 : read_u16 c15 = .ok (h4, c16)) (e16 : read_u64 c16 = .ok (tm, c17))
    (e17 : read_u32 c17 = .ok (ti, c18)) (e18 : read_u8 c18 = .ok (t, c19)) :
    read_sd_ppd c1 = .error .panicked := by
  unfold read_sd_ppd
  simp only [e1, e2, e3, e4, e5, e6, e7, e8, e9, e10, e11, e12, e13, e14, e15, e16, e17, e18]
  rw [if_neg ht]

lemma recordBytes_length (p : SDPiiPersonalData) : (recordBytes p).length = 45 := by
  simp [recordBytes, u16be_length, u32be_length, u64be_length]

lemma rosterBytes_length (R : List SDPiiPersonalData) :
    (rosterBytes R).length = 45 * R.length := by
  induction R with
  | nil => simp [rosterBytes]
  | cons p ps ih => simp [rosterBytes, recordBytes_length, ih]; omega

set_option maxHeartbeats 1600000 in
lemma read_sd_ppd_spec (d : List Nat) (pos : Nat) (p : SDPiiPersonalData)
    (hb : hasBytesAt d pos (recordBytes p)) :
    read_sd_ppd ⟨d, pos⟩ = .ok (decodeRecord p, ⟨d, pos + 45⟩) := by
  rw [recordBytes] at hb
  obtain ⟨e1, hb⟩ := read_u16be_spec d pos _ _ hb
  obtain ⟨e2, hb⟩ := read_u16be_spec d _ _ _ hb
  obtain ⟨e3, hb⟩ := read_u16be_spec d _ _ _ hb
  obtain ⟨e4, hb⟩ := read_u16be_spec d _ _ _ hb
  obtain ⟨e5, hb⟩ := read_u16be_spec d _ _ _ hb
  obtain ⟨e6, hb⟩ := read_u16be_spec d _ _ _ hb
  obtain ⟨e7, hb⟩ := read_u16be_spec d _ _ _ hb
  obtain ⟨e8, hb⟩ := read_u16be_spec d _ _ _ hb
  obtain ⟨e9, hb⟩ := read_u16be_spec d _ _ _ hb
  obtain ⟨e10, hb⟩ := read_u16be_spec d _ _ _ hb
  obtain ⟨e11, hb⟩ := read_u32be_spec d _ _ _ hb
  obtain ⟨e12, hb⟩ := read_u16be_spec d _ _ _ hb
  obtain ⟨e13, hb⟩ := read_u16be_spec d _ _ _ hb
  obtain ⟨e14, hb⟩ := read_u16be_spec d _ _ _ hb
  obtain ⟨e15, hb⟩ := read_u16be_spec d _ _ _ hb
  obtain ⟨e16, hb⟩ := read_u64be_spec d _ _ _ hb
  obtain ⟨e17, hb⟩ := read_u32be_spec d _ _ _ hb
  obtain ⟨e18, -⟩ := read_u8_spec d _ 0 [] hb
  rw [read_sd_ppd_calc _ _ _ _ _ _ _ _ _ _ _ _ _ _ _ _ _ _ _ _ _ _ _ _ _ _ _ _ _ _ _ _ _ _ _ _
    e1 e2 e3 e4 e5 e6 e7 e8 e9 e10 e11 e12 e13 e14 e15 e16 e17 e18]
  clear e1 e2 e3 e4 e5 e6 e7 e8 e9 e10 e11 e12 e13 e14 e15 e16 e17 e18 hb
  have hw : SDPiiPersonalDataPacked.new p.mons_no p.form_no p.sex % 2 ^ 16 =
      SDPiiPersonalDataPacked.new p.mons_no p.form_no p.sex :=
    Nat.mod_eq_of_lt (packed_new_lt _ _ _)
  rw [hw]
  have hjoin : ∀ v : Nat, u32FromHalves (u32HighHalf v % 2 ^ 16) (u32LowHalf v % 2 ^ 16) =
      v % 2 ^ 32 := by
    intro v
    simp only [u32FromHalves, u32HighHalf, u32LowHalf]
    omega
  rw [show pos + 2 + 2 + 2 + 2 + 2 + 2 + 2 + 2 + 2 + 2 + 4 + 2 + 2 + 2 + 2 + 8 + 4 + 1 =
    pos + 45 by omega]
  simp only [decodeRecord, packed_new_mons_no, packed_new_form_no, packed_new_sex, hjoin]

lemma readRecords_spec (R : List SDPiiPersonalData) : ∀ (d : List Nat) (pos : Nat),
    hasBytesAt d pos (rosterBytes R) →
    readRecords R.length ⟨d, pos⟩ = .ok (R.map decodeRecord) := by
  induction R with
  | nil => intro d pos _; rfl
  | cons p ps ih =>
    intro d pos hb
    rw [rosterBytes] at hb
    obtain ⟨hb1, hb2⟩ := hasBytesAt_append_split d pos _ _ hb
    rw [recordBytes_length] at hb2
    show readRecords (ps.length + 1) ⟨d, pos⟩ = _
    unfold readRecords
    simp only [read_sd_ppd_spec d pos p hb1, ih d (pos + 45) hb2, List.map_cons]

lemma writeRecords_eq (R : List SDPiiPersonalData) : ∀ (d : List Nat) (pos : Nat)
    (acc : List Nat), pos + acc.length + 45 * R.length ≤ d.length →
    writeRecords ⟨overwrite d pos acc, pos + acc.length⟩ R =
      ⟨overwrite d pos (acc ++ rosterBytes R), pos + (acc ++ rosterBytes R).length⟩ := by
  induction R with
  | nil => intro d pos acc h; simp [writeRecords, rosterBytes]
  | cons p ps ih =>
    intro d pos acc h
    unfold writeRecords
    rw [write_sd_ppd_eq (overwrite d pos acc) (pos + acc.length) p
      (by rw [overwrite_length]; simp only [List.length_cons] at h; omega)]
    show writeRecords ⟨overwrite (overwrite d pos acc) (pos + acc.length) (recordBytes p),
      pos + acc.length + 45⟩ ps = _
    rw [overwrite_append d pos acc (recordBytes p)
      (by rw [recordBytes_length]; simp only [List.length_cons] at h; omega)]
    rw [show pos + acc.length + 45 = pos + (acc ++ recordBytes p).length by
      simp only [List.length_append, recordBytes_length]; omega]
    rw [ih d pos (acc ++ recordBytes p)
      (by simp only [List.length_append, recordBytes_length, List.length_cons] at h ⊢; omega)]
    rw [show acc ++ recordBytes p ++ rosterBytes ps = acc ++ rosterBytes (p :: ps) by
      rw [rosterBytes, List.append_assoc]]

lemma write_piibox_eq (d : List Nat) (R : List SDPiiPersonalData)
    (hR : R.length ≤ 0xFFFF) (hfit : PIIBOX_SAVEDATA_OFFSET + 2 + 45 * R.length ≤ d.length) :
    write_piibox d R =
      (overwrite d PIIBOX_SAVEDATA_OFFSET (u16be R.length ++ rosterBytes R), none) := by
  simp only [write_piibox]
  rw [if_neg (by omega)]
  rw [writeBytesP_fits ⟨d, PIIBOX_SAVEDATA_OFFSET⟩ (u16be R.length)
    (by simp only [u16be_length]; unfold PIIBOX_SAVEDATA_OFFSET at hfit ⊢; omega)]
  show ((writeRecords ⟨overwrite d PIIBOX_SAVEDATA_OFFSET (u16be R.length),
    PIIBOX_SAVEDATA_OFFSET + (u16be R.length).length⟩ R).data, none) = _
  rw [writeRecords_eq R d PIIBOX_SAVEDATA_OFFSET (u16be R.length)
    (by simp only [u16be_length]; omega)]

lemma extract_piibox_spec (d : List Nat) (R : List SDPiiPersonalData)
    (hlen : R.length < 2 ^ 16)
    (hb : hasBytesAt d PIIBOX_SAVEDATA_OFFSET (u16be R.length ++ rosterBytes R)) :
    extract_piibox d = .ok (R.map decodeRecord) := by
  unfold extract_piibox
  obtain ⟨e, hb2⟩ := read_u16be_spec d PIIBOX_SAVEDATA_OFFSET R.length _ hb
  rw [Nat.mod_eq_of_lt hlen] at e
  simp only [e]
  exact readRecords_spec R d _ hb2

lemma decodeRecord_eq_self (p : SDPiiPersonalData) (hp : recOk p) : decodeRecord p = p := by
  obtain ⟨h1, h2, h3, h4, h5, h6, h7, h8, h9, h10, h11, h12, h13, h14, h15, h16⟩ := hp
  cases p
  simp only [decodeRecord, SDPiiPersonalData.mk.injEq] at h1 h2 h3 h4 h5 h6 h7 h8 h9 h10 h11 h12 h13 h14 h15 h16 ⊢
  refine ⟨by omega, by omega, by omega, by omega, by omega, by omega, by omega, by omega,
    by omega, by omega, by omega, by omega, by omega, by omega, by omega⟩

lemma read_u8_ok (d : List Nat) (pos : Nat) (h : pos < d.length) :
    ∃ v, read_u8 ⟨d, pos⟩ = .ok (v, ⟨d, pos + 1⟩) := by
  have hsome : d[pos]? = some (d.get ⟨pos, h⟩) := by
    rw [List.getElem?_eq_getElem h]
    rfl
  exact ⟨d.get ⟨pos, h⟩, by unfold read_u8; rw [hsome]⟩

lemma read_u16_ok (d : List Nat) (pos : Nat) (h : pos + 2 ≤ d.length) :
    ∃ v, read_u16 ⟨d, pos⟩ = .ok (v, ⟨d, pos + 2⟩) := by
  obtain ⟨v0, e0⟩ := read_u8_ok d pos (by omega)
  obtain ⟨v1, e1⟩ := read_u8_ok d (pos + 1) (by omega)
  refine ⟨v0 * 2 ^ 8 + v1, ?_⟩
  unfold read_u16
  simp only [e0, e1]

lemma read_u32_ok (d : List Nat) (pos : Nat) (h : pos + 4 ≤ d.length) :
    ∃ v, read_u32 ⟨d, pos⟩ = .ok (v, ⟨d, pos + 4⟩) := by
  obtain ⟨v0, e0⟩ := read_u16_ok d pos (by omega)
  obtain ⟨v1, e1⟩ := read_u16_ok d (pos + 2) (by omega)
  refine ⟨v0 * 2 ^ 16 + v1, ?_⟩
  unfold read_u32
  simp only [e0, e1]

lemma read_u64_ok (d : List Nat) (pos : Nat) (h : pos + 8 ≤ d.length) :
    ∃ v, read_u64 ⟨d, pos⟩ = .ok (v, ⟨d, pos + 8⟩) := by
  obtain ⟨v0, e0⟩ := read_u32_ok d pos (by omega)
  obtain ⟨v1, e1⟩ := read_u32_ok d (pos + 4) (by omega)
  refine ⟨v0 * 2 ^ 32 + v1, ?_⟩
  unfold read_u64
  simp only [e0, e1]

lemma read_sd_ppd_bad_trailing (d : List Nat) (pos t : Nat)
    (hk : pos + 45 ≤ d.length) (ht0 : d[pos + 44]? = some t) (ht : t ≠ 0) :
    read_sd_ppd ⟨d, pos⟩ = .error .panicked := by
  obtain ⟨v1, e1⟩ := read_u16_ok d pos (by omega)
  obtain ⟨v2, e2⟩ := read_u16_ok d (pos + 2) (by omega)
  obtain ⟨v3, e3⟩ := read_u16_ok d (pos + 2 + 2) (by omega)
  obtain ⟨v4, e4⟩ := read_u16_ok d (pos + 2 + 2 + 2) (by omega)
  obtain ⟨v5, e5⟩ := read_u16_ok d (pos + 2 + 2 + 2 + 2) (by omega)
  obtain ⟨v6, e6⟩ := read_u16_ok d (pos + 2 + 2 + 2 + 2 + 2) (by omega)
  obtain ⟨v7, e7⟩ := read_u16_ok d (pos + 2 + 2 + 2 + 2 + 2 + 2) (by omega)
  obtain ⟨v8, e8⟩ := read_u16_ok d (pos + 2 + 2 + 2 + 2 + 2 + 2 + 2) (by omega)
  obtain ⟨v9, e9⟩ := read_u16_ok d (pos + 2 + 2 + 2 + 2 + 2 + 2 + 2 + 2) (by omega)
  obtain ⟨v10, e10⟩ := read_u16_ok d (pos + 2 + 2 + 2 + 2 + 2 + 2 + 2 + 2 + 2) (by omega)
  obtain ⟨v11, e11⟩ := read_u32_ok d (pos + 2 + 2 + 2 + 2 + 2 + 2 + 2 + 2 + 2 + 2) (by omega)
  obtain ⟨v12, e12⟩ := read_u16_ok d (pos + 2 + 2 + 2 + 2 + 2 + 2 + 2 + 2 + 2 + 2 + 4) (by omega)
  obtain ⟨v13, e13⟩ := read_u16_ok d (pos + 2 + 2 + 2 + 2 + 2 + 2 + 2 + 2 + 2 + 2 + 4 + 2) (by omega)
  obtain ⟨v14, e14⟩ :=
    read_u16_ok d (pos + 2 + 2 + 2 + 2 + 2 + 2 + 2 + 2 + 2 + 2 + 4 + 2 + 2) (by omega)
  obtain ⟨v15, e15⟩ :=
    read_u16_ok d (pos + 2 + 2 + 2 + 2 + 2 + 2 + 2 + 2 + 2 + 2 + 4 + 2 + 2 + 2) (by omega)
  obtain ⟨v16, e16⟩ :=
    read_u64_ok d (pos + 2 + 2 + 2 + 2 + 2 + 2 + 2 + 2 + 2 + 2 + 4 + 2 + 2 + 2 + 2) (by omega)
  obtain ⟨v17, e17⟩ :=
    read_u32_ok d (pos + 2 + 2 + 2 + 2 + 2 + 2 + 2 + 2 + 2 + 2 + 4 + 2 + 2 + 2 + 2 + 8) (by omega)
  rw [show pos + 2 + 2 + 2 + 2 + 2 + 2 + 2 + 2 + 2 + 2 + 4 + 2 + 2 + 2 + 2 + 8 + 4 =
    pos + 44 by omega] at e17
  have e18 : read_u8 ⟨d, pos + 44⟩ = .ok (t, ⟨d, pos + 44 + 1⟩) := by
    unfold read_u8
    rw [ht0]
  exact read_sd_ppd_calc_bad _ _ _ _ _ _ _ _ _ _ _ _ _ _ _ _ _ _ _
    _ _ _ _ _ _ _ _ _ _ _ _ _ _ _ _ _ _ ht
    e1 e2 e3 e4 e5 e6 e7 e8 e9 e10 e11 e12 e13 e14 e15 e16 e17 e18

lemma extract_piibox_bad (d : List Nat) (t : Nat)
    (hlen : PIIBOX_SAVEDATA_OFFSET + 47 ≤ d.length)
    (h0 : d[PIIBOX_SAVEDATA_OFFSET]? = some 0)
    (h1 : d[PIIBOX_SAVEDATA_OFFSET + 1]? = some 1)
    (ht0 : d[PIIBOX_SAVEDATA_OFFSET + 46]? = some t) (ht : t ≠ 0) :
    extract_piibox d = .error .panicked := by
  have e0 : read_u8 ⟨d, PIIBOX_SAVEDATA_OFFSET⟩ = .ok (0, ⟨d, PIIBOX_SAVEDATA_OFFSET + 1⟩) := by
    unfold read_u8
    rw [h0]
  have e1 : read_u8 ⟨d, PIIBOX_SAVEDATA_OFFSET + 1⟩ =
      .ok (1, ⟨d, PIIBOX_SAVEDATA_OFFSET + 1 + 1⟩) := by
    unfold read_u8
    rw [h1]
  have e : read_u16 ⟨d, PIIBOX_SAVEDATA_OFFSET⟩ =
      .ok (1, ⟨d, PIIBOX_SAVEDATA_OFFSET + 1 + 1⟩) := by
    unfold read_u16
    simp only [e0, e1]
    norm_num
  unfold extract_piibox
  simp only [e]
  have hbad := read_sd_ppd_bad_trailing d (PIIBOX_SAVEDATA_OFFSET + 1 + 1) t
    (by omega) (by rw [show PIIBOX_SAVEDATA_OFFSET + 1 + 1 + 44 =
      PIIBOX_SAVEDATA_OFFSET + 46 by omega]; exact ht0) ht
  unfold readRecords
  simp only [hbad]

/-- C2 (amended). -/
theorem c2_record_round_trip (savedata : List Nat) (R : List SDPiiPersonalData)
    (hsize : PIIBOX_SAVEDATA_OFFSET + 2 + 45 * R.length ≤ savedata.length)
    (hcount : R.length < 2 ^ 16)
    (hR : ∀ p ∈ R, recOk p) :
    (write_piibox savedata R).2 = none ∧
    extract_piibox (write_piibox savedata R).1 = .ok R := by
  have hw := write_piibox_eq savedata R (by omega) hsize
  rw [hw]
  refine ⟨rfl, ?_⟩
  have hb := overwrite_hasBytesAt savedata PIIBOX_SAVEDATA_OFFSET
    (u16be R.length ++ rosterBytes R)
    (by simp only [List.length_append, u16be_length, rosterBytes_length]; omega)
  show extract_piibox (overwrite savedata PIIBOX_SAVEDATA_OFFSET
    (u16be R.length ++ rosterBytes R)) = _
  rw [extract_piibox_spec _ R hcount hb]
  have h1 : R.map decodeRecord = R.map id :=
    List.map_congr_left fun p hp => decodeRecord_eq_self p (hR p hp)
  rw [h1, List.map_id]

/-- C2 witness. -/
theorem c2_record_round_trip_witness :
    (write_piibox demoBuffer [okRecord]).2 = none ∧
    extract_piibox (write_piibox demoBuffer [okRecord]).1 = .ok [okRecord] :=
  c2_record_round_trip demoBuffer [okRecord]
    (by simp [demoBuffer])
    (by simp)
    (by intro p hp; rw [List.mem_singleton] at hp; subst hp; unfold recOk; decide)

/-- C2 counterexample. -/
theorem c2_counterexample :
    extract_piibox (write_piibox demoBuffer [cexRecord]).1 ≠ Except.ok [cexRecord] := by
  have hw := write_piibox_eq demoBuffer [cexRecord] (by simp) (by simp [demoBuffer])
  rw [hw]
  have hb := overwrite_hasBytesAt demoBuffer PIIBOX_SAVEDATA_OFFSET
    (u16be [cexRecord].length ++ rosterBytes [cexRecord])
    (by simp [demoBuffer, u16be_length, rosterBytes_length])
  show extract_piibox (overwrite demoBuffer PIIBOX_SAVEDATA_OFFSET
    (u16be [cexRecord].length ++ rosterBytes [cexRecord])) ≠ _
  rw [extract_piibox_spec _ [cexRecord] (by simp) hb]
  simp only [List.map_cons, List.map_nil, ne_eq, Except.ok.injEq, List.cons.injEq, and_true]
  intro h
  exact absurd h (by decide)

/-- C7 (amended). -/
theorem c7_trailing_byte_panics :
    (∀ (d : List Nat) (pos t : Nat), pos + 45 ≤ d.length → d[pos + 44]? = some t → t ≠ 0 →
      read_sd_ppd ⟨d, pos⟩ = .error .panicked) ∧
    (∀ (d : List Nat) (t : Nat), PIIBOX_SAVEDATA_OFFSET + 47 ≤ d.length →
      d[PIIBOX_SAVEDATA_OFFSET]? = some 0 → d[PIIBOX_SAVEDATA_OFFSET + 1]? = some 1 →
      d[PIIBOX_SAVEDATA_OFFSET + 46]? = some t → t ≠ 0 →
      extract_piibox d = .error .panicked) :=
  ⟨read_sd_ppd_bad_trailing, extract_piibox_bad⟩

lemma badBuffer_length (t : Nat) : (badBuffer t).length = PIIBOX_SAVEDATA_OFFSET + 47 := by
  simp [badBuffer]

lemma badBuffer_get (t k : Nat) :
    (badBuffer t)[PIIBOX_SAVEDATA_OFFSET + k]? = ([0, 1] ++ (List.replicate 44 0 ++ [t]))[k]? := by
  unfold badBuffer
  rw [List.getElem?_append_right
    (show (List.replicate PIIBOX_SAVEDATA_OFFSET (0 : Nat)).length ≤ PIIBOX_SAVEDATA_OFFSET + k
      by simp)]
  rw [List.length_replicate, Nat.add_sub_cancel_left]

lemma badBuffer_tail_byte (t : Nat) :
    (badBuffer t)[PIIBOX_SAVEDATA_OFFSET + 46]? = some t := by
  rw [badBuffer_get]
  rw [List.getElem?_append_right (show ([0, 1] : List Nat).length ≤ 46 by simp)]
  norm_num

/-- C7 witness. -/
theorem c7_trailing_byte_panics_witness :
    read_sd_ppd ⟨badBuffer 2, PIIBOX_SAVEDATA_OFFSET + 2⟩ = .error .panicked ∧
    extract_piibox (badBuffer 2) = .error .panicked := by
  constructor
  · refine c7_trailing_byte_panics.1 (badBuffer 2) (PIIBOX_SAVEDATA_OFFSET + 2) 2
      (by rw [badBuffer_length]) ?_ (by decide)
    rw [show PIIBOX_SAVEDATA_OFFSET + 2 + 44 = PIIBOX_SAVEDATA_OFFSET + 46 by omega]
    exact badBuffer_tail_byte 2
  · refine c7_trailing_byte_panics.2 (badBuffer 2) 2
      (by rw [badBuffer_length]) ?_ ?_ (badBuffer_tail_byte 2) (by decide)
    · have := badBuffer_get 2 0
      rw [Nat.add_zero] at this
      rw [this]
      rfl
    · rw [badBuffer_get]
      rfl

/-- C7 counterexample. -/
theorem c7_counterexample :
    extract_piibox (badBuffer 1) = .error .panicked ∧
    extract_piibox (badBuffer 1) ≠ .error .formatError := by
  have h := extract_piibox_bad (badBuffer 1) 1 (by rw [badBuffer_length])
    (by have := badBuffer_get 1 0; rw [Nat.add_zero] at this; rw [this]; rfl)
    (by rw [badBuffer_get]; rfl)
    (badBuffer_tail_byte 1) (by decide)
  exact ⟨h, by rw [h]; simp⟩

lemma land_fifteen (n : Nat) : n &&& 15 = n % 16 := by
  have := Nat.and_pow_two_sub_one_eq_mod n 4
  simpa using this

lemma wrap_sub_add (a y : Nat) (ha : a < 256) : wrapping_sub (wrapping_add a y) y = a := by
  unfold wrapping_sub wrapping_add
  omega

lemma wrap_add_sub (a y : Nat) (ha : a < 256) : wrapping_add (wrapping_sub a y) y = a := by
  unfold wrapping_sub wrapping_add
  omega

lemma wrapping_add_lt (a y : Nat) : wrapping_add a y < 256 := by
  unfold wrapping_add
  omega

lemma wrapping_sub_lt (a y : Nat) : wrapping_sub a y < 256 := by
  unfold wrapping_sub
  omega

lemma getD_set_self (l : List Nat) (i v : Nat) (hi : i < l.length) :
    (l.set i v).getD i 0 = v := by
  rw [List.getD_eq_getElem?_getD, List.getElem?_set_self (by omega)]
  rfl

lemma getD_set_ne (l : List Nat) (i v j : Nat) (hij : i ≠ j) :
    (l.set i v).getD j 0 = l.getD j 0 := by
  rw [List.getD_eq_getElem?_getD, List.getElem?_set_ne hij, ← List.getD_eq_getElem?_getD]

lemma list_ext_getD (l1 l2 : List Nat) (hl : l1.length = l2.length)
    (h : ∀ j, l1.getD j 0 = l2.getD j 0) : l1 = l2 := by
  apply List.ext_getElem?
  intro j
  rcases Nat.lt_or_ge j l1.length with hj | hj
  · rw [List.getElem?_eq_getElem hj, List.getElem?_eq_getElem (hl ▸ hj)]
    have := h j
    rw [List.getD_eq_getElem?_getD, List.getD_eq_getElem?_getD,
      List.getElem?_eq_getElem hj, List.getElem?_eq_getElem (hl ▸ hj)] at this
    simpa using this
  · rw [List.getElem?_eq_none hj, List.getElem?_eq_none (by omega)]

lemma chunkOffset_eq (k j : Nat) :
    chunkOffset k j = k * 16 + (k + (j - k * 16)) % 16 - 16 := rfl

lemma chunkOffset_lt (k j : Nat) (hk : 1 ≤ k) : chunkOffset k j < k * 16 := by
  rw [chunkOffset_eq]
  have h := Nat.mod_lt (k + (j - k * 16)) (show 0 < 16 by omega)
  omega

lemma cipherSubStepT_eq (k : Nat) (b : List Nat) (i : Nat) :
    cipherSubStepT k b i =
      b.set (k * 16 + i)
        (wrapping_sub (b.getD (k * 16 + i) 0) (b.getD (k * 16 + (k + i) % 16 - 16) 0)) := by
  unfold cipherSubStepT
  rw [land_fifteen]
  rfl

lemma cipherAddStepT_eq (k : Nat) (b : List Nat) (i : Nat) :
    cipherAddStepT k b i =
      b.set (k * 16 + i)
        (wrapping_add (b.getD (k * 16 + i) 0) (b.getD (k * 16 + (k + i) % 16 - 16) 0)) := by
  unfold cipherAddStepT
  rw [land_fifteen]
  rfl

lemma cipherSubStepT_length (k : Nat) (b : List Nat) (i : Nat) :
    (cipherSubStepT k b i).length = b.length := by
  rw [cipherSubStepT_eq, List.length_set]

lemma cipherAddStepT_length (k : Nat) (b : List Nat) (i : Nat) :
    (cipherAddStepT k b i).length = b.length := by
  rw [cipherAddStepT_eq, List.length_set]

lemma chunkSubT_fold_length (k : Nat) (b : List Nat) (m : Nat) :
    ((List.range m).foldl (cipherSubStepT k) b).length = b.length := by
  induction m with
  | zero => rfl
  | succ m ih =>
    rw [List.range_succ, List.foldl_append, List.foldl_cons, List.foldl_nil,
      cipherSubStepT_length, ih]

lemma chunkAddT_fold_length (k : Nat) (b : List Nat) (m : Nat) :
    ((List.range m).foldl (cipherAddStepT k) b).length = b.length := by
  induction m with
  | zero => rfl
  | succ m ih =>
    rw [List.range_succ, List.foldl_append, List.foldl_cons, List.foldl_nil,
      cipherAddStepT_length, ih]

lemma cipherChunkSubT_eq (k : Nat) (b : List Nat) :
    cipherChunkSubT k b = (List.range 16).foldl (cipherSubStepT k) b := rfl

lemma cipherChunkAddT_eq (k : Nat) (b : List Nat) :
    cipherChunkAddT k b = (List.range 16).foldl (cipherAddStepT k) b := rfl

lemma cipherChunkSubT_length (k : Nat) (b : List Nat) :
    (cipherChunkSubT k b).length = b.length := chunkSubT_fold_length k b 16

lemma cipherChunkAddT_length (k : Nat) (b : List Nat) :
    (cipherChunkAddT k b).length = b.length := chunkAddT_fold_length k b 16

lemma chunkSubT_fold_getD (k : Nat) (hk : 1 ≤ k) (b : List Nat)
    (hlen : k * 16 + 16 ≤ b.length) :
    ∀ m, m ≤ 16 → ∀ j,
      ((List.range m).foldl (cipherSubStepT k) b).getD j 0 =
        if k * 16 ≤ j ∧ j < k * 16 + m then
          wrapping_sub (b.getD j 0) (b.getD (chunkOffset k j) 0)
        else b.getD j 0 := by
  intro m
  induction m with
  | zero =>
    intro _ j
    rw [if_neg (by omega)]
    rfl
  | succ m ih =>
    intro hm j
    rw [List.range_succ, List.foldl_append, List.foldl_cons, List.foldl_nil]
    rw [cipherSubStepT_eq]
    have hoff : k * 16 + (k + m) % 16 - 16 = chunkOffset k (k * 16 + m) := by
      rw [chunkOffset_eq]
      congr 2
      omega
    rw [hoff]
    rw [ih (by omega) (k * 16 + m), if_neg (by omega)]
    have hofflt := chunkOffset_lt k (k * 16 + m) hk
    rw [ih (by omega) (chunkOffset k (k * 16 + m)), if_neg (by omega)]
    rcases eq_or_ne j (k * 16 + m) with hj | hj
    · subst hj
      rw [getD_set_self _ _ _ (by rw [chunkSubT_fold_length]; omega)]
      rw [if_pos (by omega)]
    · rw [getD_set_ne _ _ _ _ (Ne.symm hj)]
      rw [ih (by omega) j]
      by_cases hcond : k * 16 ≤ j ∧ j < k * 16 + m
      · rw [if_pos hcond, if_pos (by omega)]
      · rw [if_neg hcond, if_neg (by omega)]

lemma chunkAddT_fold_getD (k : Nat) (hk : 1 ≤ k) (b : List Nat)
    (hlen : k * 16 + 16 ≤ b.length) :
    ∀ m, m ≤ 16 → ∀ j,
      ((List.range m).foldl (cipherAddStepT k) b).getD j 0 =
        if k * 16 ≤ j ∧ j < k * 16 + m then
          wrapping_add (b.getD j 0) (b.getD (chunkOffset k j) 0)
        else b.getD j 0 := by
  intro m
  induction m with
  | zero =>
    intro _ j
    rw [if_neg (by omega)]
    rfl
  | succ m ih =>
    intro hm j
    rw [List.range_succ, List.foldl_append, List.foldl_cons, List.foldl_nil]
    rw [cipherAddStepT_eq]
    have hoff : k * 16 + (k + m) % 16 - 16 = chunkOffset k (k * 16 + m) := by
      rw [chunkOffset_eq]
      congr 2
      omega
    rw [hoff]
    rw [ih (by omega) (k * 16 + m), if_neg (by omega)]
    have hofflt := chunkOffset_lt k (k * 16 + m) hk
    rw [ih (by omega) (chunkOffset k (k * 16 + m)), if_neg (by omega)]
    rcases eq_or_ne j (k * 16 + m) with hj | hj
    · subst hj
      rw [getD_set_self _ _ _ (by rw [chunkAddT_fold_length]; omega)]
      rw [if_pos (by omega)]
    · rw [getD_set_ne _ _ _ _ (Ne.symm hj)]
      rw [ih (by omega) j]
      by_cases hcond : k * 16 ≤ j ∧ j < k * 16 + m
      · rw [if_pos hcond, if_pos (by omega)]
      · rw [if_neg hcond, if_neg (by omega)]

lemma cipherChunkSubT_getD (k : Nat) (hk : 1 ≤ k) (b : List Nat)
    (hlen : k * 16 + 16 ≤ b.length) (j : Nat) :
    (cipherChunkSubT k b).getD j 0 =
      if k * 16 ≤ j ∧ j < k * 16 + 16 then
        wrapping_sub (b.getD j 0) (b.getD (chunkOffset k j) 0)
      else b.getD j 0 := by
  rw [cipherChunkSubT_eq]
  exact chunkSubT_fold_getD k hk b hlen 16 (by omega) j

lemma cipherChunkAddT_getD (k : Nat) (hk : 1 ≤ k) (b : List Nat)
    (hlen : k * 16 + 16 ≤ b.length) (j : Nat) :
    (cipherChunkAddT k b).getD j 0 =
      if k * 16 ≤ j ∧ j < k * 16 + 16 then
        wrapping_add (b.getD j 0) (b.getD (chunkOffset k j) 0)
      else b.getD j 0 := by
  rw [cipherChunkAddT_eq]
  exact chunkAddT_fold_getD k hk b hlen 16 (by omega) j

lemma CHUNK_SIZE_eq : CHUNK_SIZE = 16 := rfl

lemma byteOk_getD (b : List Nat) (h : byteOk b) (j : Nat) : b.getD j 0 < 256 := by
  rcases Nat.lt_or_ge j b.length with hj | hj
  · rw [List.getD_eq_getElem b 0 hj]
    exact h _ (List.getElem_mem hj)
  · rw [List.getD_eq_default b 0 hj]
    omega

lemma byteOk_of_getD (b : List Nat) (h : ∀ j, b.getD j 0 < 256) : byteOk b := by
  intro x hx
  obtain ⟨j, hj, hx⟩ := List.mem_iff_getElem.mp hx
  have := h j
  rw [List.getD_eq_getElem b 0 hj, hx] at this
  exact this

lemma cipherChunkSubT_byteOk (k : Nat) (hk : 1 ≤ k) (b : List Nat)
    (hlen : k * 16 + 16 ≤ b.length) (hb : byteOk b) : byteOk (cipherChunkSubT k b) := by
  apply byteOk_of_getD
  intro j
  rw [cipherChunkSubT_getD k hk b hlen j]
  by_cases hc : k * 16 ≤ j ∧ j < k * 16 + 16
  · rw [if_pos hc]
    exact wrapping_sub_lt _ _
  · rw [if_neg hc]
    exact byteOk_getD b hb j

lemma cipherChunkAddT_byteOk (k : Nat) (hk : 1 ≤ k) (b : List Nat)
    (hlen : k * 16 + 16 ≤ b.length) (hb : byteOk b) : byteOk (cipherChunkAddT k b) := by
  apply byteOk_of_getD
  intro j
  rw [cipherChunkAddT_getD k hk b hlen j]
  by_cases hc : k * 16 ≤ j ∧ j < k * 16 + 16
  · rw [if_pos hc]
    exact wrapping_add_lt _ _
  · rw [if_neg hc]
    exact byteOk_getD b hb j

lemma chunkSub_chunkAdd (k : Nat) (hk : 1 ≤ k) (b : List Nat)
    (hlen : k * 16 + 16 ≤ b.length) (hb : byteOk b) :
    cipherChunkSubT k (cipherChunkAddT k b) = b := by
  apply list_ext_getD _ _ (by rw [cipherChunkSubT_length, cipherChunkAddT_length])
  intro j
  rw [cipherChunkSubT_getD k hk _ (by rw [cipherChunkAddT_length]; omega) j]
  by_cases hc : k * 16 ≤ j ∧ j < k * 16 + 16
  · rw [if_pos hc]
    rw [cipherChunkAddT_getD k hk b hlen j, if_pos hc]
    rw [cipherChunkAddT_getD k hk b hlen (chunkOffset k j),
      if_neg (by have := chunkOffset_lt k j hk; omega)]
    exact wrap_sub_add _ _ (byteOk_getD b hb j)
  · rw [if_neg hc, cipherChunkAddT_getD k hk b hlen j, if_neg hc]

lemma chunkAdd_chunkSub (k : Nat) (hk : 1 ≤ k) (b : List Nat)
    (hlen : k * 16 + 16 ≤ b.length) (hb : byteOk b) :
    cipherChunkAddT k (cipherChunkSubT k b) = b := by
  apply list_ext_getD _ _ (by rw [cipherChunkAddT_length, cipherChunkSubT_length])
  intro j
  rw [cipherChunkAddT_getD k hk _ (by rw [cipherChunkSubT_length]; omega) j]
  by_cases hc : k * 16 ≤ j ∧ j < k * 16 + 16
  · rw [if_pos hc]
    rw [cipherChunkSubT_getD k hk b hlen j, if_pos hc]
    rw [cipherChunkSubT_getD k hk b hlen (chunkOffset k j),
      if_neg (by have := chunkOffset_lt k j hk; omega)]
    exact wrap_add_sub _ _ (byteOk_getD b hb j)
  · rw [if_neg hc, cipherChunkSubT_getD k hk b hlen j, if_neg hc]

lemma foldl_sub_length (ks : List Nat) : ∀ b : List Nat,
    (ks.foldl (fun b k => cipherChunkSubT k b) b).length = b.length := by
  induction ks with
  | nil => intro b; rfl
  | cons k t ih =>
    intro b
    rw [List.foldl_cons, ih, cipherChunkSubT_length]

lemma foldl_add_length (ks : List Nat) : ∀ b : List Nat,
    (ks.foldl (fun b k => cipherChunkAddT k b) b).length = b.length := by
  induction ks with
  | nil => intro b; rfl
  | cons k t ih =>
    intro b
    rw [List.foldl_cons, ih, cipherChunkAddT_length]

lemma foldl_sub_byteOk (ks : List Nat) : ∀ b : List Nat,
    (∀ k ∈ ks, 1 ≤ k ∧ k * 16 + 16 ≤ b.length) → byteOk b →
    byteOk (ks.foldl (fun b k => cipherChunkSubT k b) b) := by
  induction ks with
  | nil => intro b _ hb; exact hb
  | cons k t ih =>
    intro b hks hb
    rw [List.foldl_cons]
    refine ih _ ?_ ?_
    · intro k2 hk2
      rw [cipherChunkSubT_length]
      exact hks k2 (List.mem_cons_of_mem k hk2)
    · obtain ⟨hk, hl⟩ := hks k (List.mem_cons_self k t)
      exact cipherChunkSubT_byteOk k hk b hl hb

lemma foldl_add_byteOk (ks : List Nat) : ∀ b : List Nat,
    (∀ k ∈ ks, 1 ≤ k ∧ k * 16 + 16 ≤ b.length) → byteOk b →
    byteOk (ks.foldl (fun b k => cipherChunkAddT k b) b) := by
  induction ks with
  | nil => intro b _ hb; exact hb
  | cons k t ih =>
    intro b hks hb
    rw [List.foldl_cons]
    refine ih _ ?_ ?_
    · intro k2 hk2
      rw [cipherChunkAddT_length]
      exact hks k2 (List.mem_cons_of_mem k hk2)
    · obtain ⟨hk, hl⟩ := hks k (List.mem_cons_self k t)
      exact cipherChunkAddT_byteOk k hk b hl hb

lemma foldl_sub_add_inverse (ks : List Nat) : ∀ b : List Nat,
    (∀ k ∈ ks, 1 ≤ k ∧ k * 16 + 16 ≤ b.length) → byteOk b →
    (ks.reverse).foldl (fun b k => cipherChunkSubT k b)
      (ks.foldl (fun b k => cipherChunkAddT k b) b) = b := by
  induction ks using List.reverseRecOn with
  | nil => intro b _ _; rfl
  | append_singleton ks k ih =>
    intro b hks hb
    rw [List.foldl_append, List.foldl_cons, List.foldl_nil, List.reverse_append,
      List.reverse_singleton, List.singleton_append, List.foldl_cons]
    have hmem : ∀ k2 ∈ ks, 1 ≤ k2 ∧ k2 * 16 + 16 ≤ b.length := fun k2 h2 =>
      hks k2 (List.mem_append_left _ h2)
    obtain ⟨hk1, hkl⟩ := hks k (List.mem_append_right _ (List.mem_singleton.mpr rfl))
    rw [chunkSub_chunkAdd k hk1 _ (by rw [foldl_add_length]; omega)
      (foldl_add_byteOk ks b hmem hb)]
    exact ih b hmem hb

lemma foldl_add_sub_inverse (ks : List Nat) : ∀ b : List Nat,
    (∀ k ∈ ks, 1 ≤ k ∧ k * 16 + 16 ≤ b.length) → byteOk b →
    ks.foldl (fun b k => cipherChunkAddT k b)
      ((ks.reverse).foldl (fun b k => cipherChunkSubT k b) b) = b := by
  induction ks with
  | nil => intro b _ _; rfl
  | cons k t ih =>
    intro b hks hb
    rw [List.reverse_cons, List.foldl_append]
    simp only [List.foldl_cons, List.foldl_nil]
    have hmem : ∀ k2 ∈ t, 1 ≤ k2 ∧ k2 * 16 + 16 ≤ b.length := fun k2 h2 =>
      hks k2 (List.mem_cons_of_mem k h2)
    obtain ⟨hk1, hkl⟩ := hks k (List.mem_cons_self k t)
    rw [chunkAdd_chunkSub k hk1 _ (by rw [foldl_sub_length]; omega)
      (foldl_sub_byteOk t.reverse b (by
        intro k2 h2
        exact hmem k2 (List.mem_reverse.mp h2)) hb)]
    exact ih b hmem hb

lemma except_bind_ok {α β : Type} (a : α) (f : α → Except Failure β) :
    (Except.ok a >>= f) = f a := rfl

lemma except_bind_err {α β : Type} (e : Failure) (f : α → Except Failure β) :
    ((Except.error e : Except Failure α) >>= f) = .error e := rfl

lemma sliceGet_ok (b : List Nat) (i : Nat) (h : i < b.length) :
    sliceGet b i = .ok (b.getD i 0) := by
  unfold sliceGet
  rw [List.getElem?_eq_getElem h, List.getD_eq_getElem b 0 h]

lemma sliceGet_err (b : List Nat) (i : Nat) (h : b.length ≤ i) :
    sliceGet b i = .error .panicked := by
  unfold sliceGet
  rw [List.getElem?_eq_none h]

lemma sliceSet_ok (b : List Nat) (i v : Nat) (h : i < b.length) :
    sliceSet b i v = .ok (b.set i v) := by
  unfold sliceSet
  rw [if_pos h]

lemma cipherSubStep_ok (k : Nat) (b : List Nat) (i : Nat) (hk : 1 ≤ k)
    (hidx : k * 16 + i < b.length) :
    cipherSubStep k b i = .ok (cipherSubStepT k b i) := by
  have hoff : k * 16 + (k + i) % 16 - 16 < b.length := by
    have := Nat.mod_lt (k + i) (show 0 < 16 by omega)
    omega
  unfold cipherSubStep
  simp only [CHUNK_SIZE_eq, land_fifteen, sliceGet_ok b (k * 16 + i) hidx,
    sliceGet_ok b (k * 16 + (k + i) % 16 - 16) hoff,
    sliceSet_ok b (k * 16 + i) _ hidx]
  rw [cipherSubStepT_eq]

lemma cipherAddStep_ok (k : Nat) (b : List Nat) (i : Nat) (hk : 1 ≤ k)
    (hidx : k * 16 + i < b.length) :
    cipherAddStep k b i = .ok (cipherAddStepT k b i) := by
  have hoff : k * 16 + (k + i) % 16 - 16 < b.length := by
    have := Nat.mod_lt (k + i) (show 0 < 16 by omega)
    omega
  unfold cipherAddStep
  simp only [CHUNK_SIZE_eq, land_fifteen, sliceGet_ok b (k * 16 + i) hidx,
    sliceGet_ok b (k * 16 + (k + i) % 16 - 16) hoff,
    sliceSet_ok b (k * 16 + i) _ hidx]
  rw [cipherAddStepT_eq]

lemma cipherSubStep_err (k : Nat) (b : List Nat) (i : Nat) (h : b.length ≤ k * 16 + i) :
    cipherSubStep k b i = .error .panicked := by
  unfold cipherSubStep
  simp only [CHUNK_SIZE_eq, sliceGet_err b (k * 16 + i) h]

lemma cipherAddStep_err (k : Nat) (b : List Nat) (i : Nat) (h : b.length ≤ k * 16 + i) :
    cipherAddStep k b i = .error .panicked := by
  unfold cipherAddStep
  simp only [CHUNK_SIZE_eq, sliceGet_err b (k * 16 + i) h]

lemma chunkSub_fold_ok (k : Nat) (hk : 1 ≤ k) : ∀ m, m ≤ 16 → ∀ b : List Nat,
    k * 16 + m ≤ b.length →
    (List.range m).foldlM (cipherSubStep k) b = .ok ((List.range m).foldl (cipherSubStepT k) b) := by
  intro m
  induction m with
  | zero => intro _ b _; rfl
  | succ m ih =>
    intro hm b hlen
    rw [List.range_succ, List.foldlM_append, List.foldl_append,
      ih (by omega) b (by omega), except_bind_ok]
    simp only [List.foldlM_cons, List.foldlM_nil, List.foldl_cons, List.foldl_nil]
    rw [cipherSubStep_ok k _ m hk (by rw [chunkSubT_fold_length]; omega)]
    rfl

lemma chunkAdd_fold_ok (k : Nat) (hk : 1 ≤ k) : ∀ m, m ≤ 16 → ∀ b : List Nat,
    k * 16 + m ≤ b.length →
    (List.range m).foldlM (cipherAddStep k) b = .ok ((List.range m).foldl (cipherAddStepT k) b) := by
  intro m
  induction m with
  | zero => intro _ b _; rfl
  | succ m ih =>
    intro hm b hlen
    rw [List.range_succ, List.foldlM_append, List.foldl_append,
      ih (by omega) b (by omega), except_bind_ok]
    simp only [List.foldlM_cons, List.foldlM_nil, List.foldl_cons, List.foldl_nil]
    rw [cipherAddStep_ok k _ m hk (by rw [chunkAddT_fold_length]; omega)]
    rfl

lemma cipherChunkSub_ok (k : Nat) (hk : 1 ≤ k) (b : List Nat) (hlen : k * 16 + 16 ≤ b.length) :
    cipherChunkSub k b = .ok (cipherChunkSubT k b) := by
  unfold cipherChunkSub
  rw [show (List.range CHUNK_SIZE) = List.range 16 from rfl]
  exact chunkSub_fold_ok k hk 16 (by omega) b hlen

lemma cipherChunkAdd_ok (k : Nat) (hk : 1 ≤ k) (b : List Nat) (hlen : k * 16 + 16 ≤ b.length) :
    cipherChunkAdd k b = .ok (cipherChunkAddT k b) := by
  unfold cipherChunkAdd
  rw [show (List.range CHUNK_SIZE) = List.range 16 from rfl]
  exact chunkAdd_fold_ok k hk 16 (by omega) b hlen

lemma chunkSub_fold_err (k : Nat) (hk : 1 ≤ k) : ∀ m, m ≤ 16 → 1 ≤ m → ∀ b : List Nat,
    b.length < k * 16 + m →
    (List.range m).foldlM (cipherSubStep k) b = .error .panicked := by
  intro m
  induction m with
  | zero => intro _ hm1; omega
  | succ m ih =>
    intro hm _ b hlen
    rw [List.range_succ, List.foldlM_append]
    rcases Nat.eq_zero_or_pos m with hm0 | hm0
    · subst hm0
      rw [show ((List.range 0).foldlM (cipherSubStep k) b) = .ok b from rfl, except_bind_ok]
      simp only [List.foldlM_cons, List.foldlM_nil]
      rw [cipherSubStep_err k b 0 (by omega), except_bind_err]
    · rcases Nat.lt_or_ge b.length (k * 16 + m) with hcase | hcase
      · rw [ih (by omega) (by omega) b hcase, except_bind_err]
      · rw [chunkSub_fold_ok k hk m (by omega) b hcase, except_bind_ok]
        simp only [List.foldlM_cons, List.foldlM_nil]
        rw [cipherSubStep_err k _ m (by rw [chunkSubT_fold_length]; omega), except_bind_err]

lemma chunkAdd_fold_err (k : Nat) (hk : 1 ≤ k) : ∀ m, m ≤ 16 → 1 ≤ m → ∀ b : List Nat,
    b.length < k * 16 + m →
    (List.range m).foldlM (cipherAddStep k) b = .error .panicked := by
  intro m
  induction m with
  | zero => intro _ hm1; omega
  | succ m ih =>
    intro hm _ b hlen
    rw [List.range_succ, List.foldlM_append]
    rcases Nat.eq_zero_or_pos m with hm0 | hm0
    · subst hm0
      rw [show ((List.range 0).foldlM (cipherAddStep k) b) = .ok b from rfl, except_bind_ok]
      simp only [List.foldlM_cons, List.foldlM_nil]
      rw [cipherAddStep_err k b 0 (by omega), except_bind_err]
    · rcases Nat.lt_or_ge b.length (k * 16 + m) with hcase | hcase
      · rw [ih (by omega) (by omega) b hcase, except_bind_err]
      · rw [chunkAdd_fold_ok k hk m (by omega) b hcase, except_bind_ok]
        simp only [List.foldlM_cons, List.foldlM_nil]
        rw [cipherAddStep_err k _ m (by rw [chunkAddT_fold_length]; omega), except_bind_err]

lemma cipherChunkSub_err (k : Nat) (hk : 1 ≤ k) (b : List Nat) (hlen : b.length < k * 16 + 16) :
    cipherChunkSub k b = .error .panicked := by
  unfold cipherChunkSub
  rw [show (List.range CHUNK_SIZE) = List.range 16 from rfl]
  exact chunkSub_fold_err k hk 16 (by omega) (by omega) b hlen

lemma cipherChunkAdd_err (k : Nat) (hk : 1 ≤ k) (b : List Nat) (hlen : b.length < k * 16 + 16) :
    cipherChunkAdd k b = .error .panicked := by
  unfold cipherChunkAdd
  rw [show (List.range CHUNK_SIZE) = List.range 16 from rfl]
  exact chunkAdd_fold_err k hk 16 (by omega) (by omega) b hlen

lemma pass_fold_sub_ok (ks : List Nat) : ∀ b : List Nat,
    (∀ k ∈ ks, 1 ≤ k ∧ k * 16 + 16 ≤ b.length) →
    ks.foldlM (fun b k => cipherChunkSub k b) b =
      .ok (ks.foldl (fun b k => cipherChunkSubT k b) b) := by
  induction ks with
  | nil => intro b _; rfl
  | cons k t ih =>
    intro b hks
    obtain ⟨hk, hkl⟩ := hks k (List.mem_cons_self k t)
    rw [List.foldlM_cons, cipherChunkSub_ok k hk b hkl, except_bind_ok, List.foldl_cons]
    exact ih _ fun k2 h2 => by
      rw [cipherChunkSubT_length]
      exact hks k2 (List.mem_cons_of_mem k h2)

lemma pass_fold_add_ok (ks : List Nat) : ∀ b : List Nat,
    (∀ k ∈ ks, 1 ≤ k ∧ k * 16 + 16 ≤ b.length) →
    ks.foldlM (fun b k => cipherChunkAdd k b) b =
      .ok (ks.foldl (fun b k => cipherChunkAddT k b) b) := by
  induction ks with
  | nil => intro b _; rfl
  | cons k t ih =>
    intro b hks
    obtain ⟨hk, hkl⟩ := hks k (List.mem_cons_self k t)
    rw [List.foldlM_cons, cipherChunkAdd_ok k hk b hkl, except_bind_ok, List.foldl_cons]
    exact ih _ fun k2 h2 => by
      rw [cipherChunkAddT_length]
      exact hks k2 (List.mem_cons_of_mem k h2)

lemma pass_fold_sub_err (ks : List Nat) : ∀ b : List Nat, (∀ k ∈ ks, 1 ≤ k) →
    (∃ k ∈ ks, b.length < k * 16 + 16) →
    ks.foldlM (fun b k => cipherChunkSub k b) b = .error .panicked := by
  induction ks with
  | nil =>
    rintro b _ ⟨k, hk, _⟩
    cases hk
  | cons k t ih =>
    rintro b hks hex
    rw [List.foldlM_cons]
    rcases Nat.lt_or_ge b.length (k * 16 + 16) with hcase | hcase
    · rw [cipherChunkSub_err k (hks k (List.mem_cons_self k t)) b hcase, except_bind_err]
    · rw [cipherChunkSub_ok k (hks k (List.mem_cons_self k t)) b hcase, except_bind_ok]
      obtain ⟨k0, hk0m, hk0⟩ := hex
      rcases List.mem_cons.mp hk0m with hk0e | hk0t
      · subst hk0e
        omega
      · exact ih _ (fun k2 h2 => hks k2 (List.mem_cons_of_mem k h2))
          ⟨k0, hk0t, by rw [cipherChunkSubT_length]; omega⟩

lemma pass_fold_add_err (ks : List Nat) : ∀ b : List Nat, (∀ k ∈ ks, 1 ≤ k) →
    (∃ k ∈ ks, b.length < k * 16 + 16) →
    ks.foldlM (fun b k => cipherChunkAdd k b) b = .error .panicked := by
  induction ks with
  | nil =>
    rintro b _ ⟨k, hk, _⟩
    cases hk
  | cons k t ih =>
    rintro b hks hex
    rw [List.foldlM_cons]
    rcases Nat.lt_or_ge b.length (k * 16 + 16) with hcase | hcase
    · rw [cipherChunkAdd_err k (hks k (List.mem_cons_self k t)) b hcase, except_bind_err]
    · rw [cipherChunkAdd_ok k (hks k (List.mem_cons_self k t)) b hcase, except_bind_ok]
      obtain ⟨k0, hk0m, hk0⟩ := hex
      rcases List.mem_cons.mp hk0m with hk0e | hk0t
      · subst hk0e
        omega
      · exact ih _ (fun k2 h2 => hks k2 (List.mem_cons_of_mem k h2))
          ⟨k0, hk0t, by rw [cipherChunkAddT_length]; omega⟩

lemma chunkRange_mem (k : Nat) (hk : k ∈ List.range' 1 (CHUNK_COUNT - 1)) :
    1 ≤ k ∧ k * 16 + 16 ≤ SAVEDATA_SIZE := by
  rw [List.mem_range'_1] at hk
  rw [show CHUNK_COUNT - 1 = 0x33FF from rfl] at hk
  rw [show SAVEDATA_SIZE = 0x34000 from rfl]
  omega

lemma decryptPass_ok (b : List Nat) (hlen : b.length = SAVEDATA_SIZE) :
    decryptPass b = .ok (decryptPassT b) := by
  unfold decryptPass decryptPassT
  exact pass_fold_sub_ok _ b fun k hk => by
    have := chunkRange_mem k (List.mem_reverse.mp hk)
    omega

lemma encryptPass_ok (b : List Nat) (hlen : b.length = SAVEDATA_SIZE) :
    encryptPass b = .ok (encryptPassT b) := by
  unfold encryptPass encryptPassT
  exact pass_fold_add_ok _ b fun k hk => by
    have := chunkRange_mem k hk
    omega

lemma lastChunk_mem : (CHUNK_COUNT - 1) ∈ List.range' 1 (CHUNK_COUNT - 1) := by
  rw [List.mem_range'_1, show CHUNK_COUNT - 1 = 0x33FF from rfl]
  omega

lemma decryptPass_err (b : List Nat) (hlen : b.length < SAVEDATA_SIZE) :
    decryptPass b = .error .panicked := by
  unfold decryptPass
  refine pass_fold_sub_err _ b
    (fun k hk => (chunkRange_mem k (List.mem_reverse.mp hk)).1) ?_
  refine ⟨CHUNK_COUNT - 1, List.mem_reverse.mpr lastChunk_mem, ?_⟩
  rw [show CHUNK_COUNT - 1 = 0x33FF from rfl]
  rw [show SAVEDATA_SIZE = 0x34000 from rfl] at hlen
  omega

lemma encryptPass_err (b : List Nat) (hlen : b.length < SAVEDATA_SIZE) :
    encryptPass b = .error .panicked := by
  unfold encryptPass
  refine pass_fold_add_err _ b (fun k hk => (chunkRange_mem k hk).1) ?_
  refine ⟨CHUNK_COUNT - 1, lastChunk_mem, ?_⟩
  rw [show CHUNK_COUNT - 1 = 0x33FF from rfl]
  rw [show SAVEDATA_SIZE = 0x34000 from rfl] at hlen
  omega

lemma sha1_length (msg : List Nat) : (sha1 msg).length = 20 := by
  simp [sha1, u32be]

lemma byteOk_append (a b : List Nat) (ha : byteOk a) (hb : byteOk b) : byteOk (a ++ b) := by
  intro x hx
  rcases List.mem_append.mp hx with h | h
  · exact ha x h
  · exact hb x h

lemma u32be_byteOk (v : Nat) : byteOk (u32be v) := by
  intro x hx
  simp only [u32be, List.mem_cons, List.not_mem_nil, or_false] at hx
  rcases hx with h | h | h | h <;> subst h <;> omega

lemma sha1_byteOk (msg : List Nat) : byteOk (sha1 msg) := by
  simp only [sha1]
  exact byteOk_append _ _ (byteOk_append _ _ (byteOk_append _ _
    (byteOk_append _ _ (u32be_byteOk _) (u32be_byteOk _)) (u32be_byteOk _))
    (u32be_byteOk _)) (u32be_byteOk _)

lemma byteOk_drop (b : List Nat) (n : Nat) (hb : byteOk b) : byteOk (b.drop n) :=
  fun x hx => hb x (List.mem_of_mem_drop hx)

lemma writeChecksum_length (b : List Nat) (h : 20 ≤ b.length) :
    (writeChecksum b).length = b.length := by
  unfold writeChecksum
  rw [List.length_append, sha1_length, List.length_drop]
  omega

lemma writeChecksum_byteOk (b : List Nat) (hb : byteOk b) : byteOk (writeChecksum b) :=
  byteOk_append _ _ (sha1_byteOk _) (byteOk_drop b 20 hb)

lemma writeChecksum_drop (b : List Nat) : (writeChecksum b).drop 20 = b.drop 20 := by
  unfold writeChecksum
  rw [List.drop_append_of_le_length (by rw [sha1_length]),
    List.drop_eq_nil_of_le (by rw [sha1_length]), List.nil_append]

lemma writeChecksum_take (b : List Nat) : (writeChecksum b).take 20 = sha1 (b.drop 20) := by
  unfold writeChecksum
  rw [List.take_append_of_le_length (by rw [sha1_length])]
  exact List.take_of_length_le (by rw [sha1_length])

lemma decryptPassT_encryptPassT (b : List Nat) (hlen : b.length = SAVEDATA_SIZE)
    (hb : byteOk b) : decryptPassT (encryptPassT b) = b := by
  unfold decryptPassT encryptPassT
  exact foldl_sub_add_inverse _ b (fun k hk => by have := chunkRange_mem k hk; omega) hb

lemma encryptPassT_decryptPassT (b : List Nat) (hlen : b.length = SAVEDATA_SIZE)
    (hb : byteOk b) : encryptPassT (decryptPassT b) = b := by
  unfold decryptPassT encryptPassT
  exact foldl_add_sub_inverse _ b (fun k hk => by have := chunkRange_mem k hk; omega) hb

lemma encryptPassT_length (b : List Nat) : (encryptPassT b).length = b.length :=
  foldl_add_length _ b

lemma decryptPassT_length (b : List Nat) : (decryptPassT b).length = b.length :=
  foldl_sub_length _ b

lemma encryptPassT_byteOk (b : List Nat) (hlen : b.length = SAVEDATA_SIZE) (hb : byteOk b) :
    byteOk (encryptPassT b) :=
  foldl_add_byteOk _ b (fun k hk => by have := chunkRange_mem k hk; omega) hb

lemma decrypt_savedata_of_pass (b c : List Nat) (h : decryptPass b = .ok c) :
    decrypt_savedata b =
      if 20 ≤ c.length then
        if sha1 (c.drop 20) = c.take 20 then .ok c else .error .panicked
      else .error .panicked := by
  unfold decrypt_savedata
  rw [h]

lemma decrypt_encrypt_roundtrip (P : List Nat) (hlen : P.length = SAVEDATA_SIZE)
    (hbytes : byteOk P) :
    encrypt_savedata P = .ok (encryptPassT (writeChecksum P)) ∧
    decrypt_savedata (encryptPassT (writeChecksum P)) = .ok (writeChecksum P) := by
  have hsize20 : 20 ≤ P.length := by
    rw [hlen]
    decide
  have hwlen : (writeChecksum P).length = SAVEDATA_SIZE := by
    rw [writeChecksum_length P hsize20, hlen]
  have hwok : byteOk (writeChecksum P) := writeChecksum_byteOk P hbytes
  have helen : (encryptPassT (writeChecksum P)).length = SAVEDATA_SIZE := by
    rw [encryptPassT_length, hwlen]
  constructor
  · unfold encrypt_savedata
    rw [if_neg (by omega), if_pos (sha1_length _)]
    show encryptPass (writeChecksum P) = _
    exact encryptPass_ok _ hwlen
  · rw [decrypt_savedata_of_pass _ (writeChecksum P)
      (by rw [decryptPass_ok _ helen, decryptPassT_encryptPassT _ hwlen hwok])]
    rw [if_pos (by rw [hwlen]; decide)]
    rw [writeChecksum_drop, writeChecksum_take, if_pos rfl]

set_option maxRecDepth 4096 in
lemma encrypt_decrypt_roundtrip (C D : List Nat) (hlen : C.length = SAVEDATA_SIZE)
    (hbytes : byteOk C) (hdec : decrypt_savedata C = .ok D) :
    encrypt_savedata D = .ok C := by
  have hdlen : (decryptPassT C).length = SAVEDATA_SIZE := by
    rw [decryptPassT_length, hlen]
  rw [decrypt_savedata_of_pass C (decryptPassT C) (decryptPass_ok C hlen)] at hdec
  rw [if_pos (by rw [hdlen]; decide)] at hdec
  by_cases hsum : sha1 ((decryptPassT C).drop 20) = (decryptPassT C).take 20
  · rw [if_pos hsum] at hdec
    have hD : decryptPassT C = D := Except.ok.inj hdec
    subst hD
    unfold encrypt_savedata
    rw [if_neg (by rw [hdlen]; decide), if_pos (sha1_length _)]
    show encryptPass (sha1 ((decryptPassT C).drop 20) ++ (decryptPassT C).drop 20) = _
    rw [hsum, List.take_append_drop]
    rw [encryptPass_ok _ hdlen]
    rw [encryptPassT_decryptPassT _ hlen hbytes]
  · rw [if_neg hsum] at hdec
    simp at hdec

/-- C1.  Cipher round-trip: encrypting a full-size buffer of bytes and
then decrypting restores every byte except the 20 checksum bytes, which
encrypt recomputes fresh (the decrypted buffer is exactly the plaintext
with its checksum prefix rewritten); conversely, for any buffer that
decrypt accepts, encrypting the decrypted output restores the original
ciphertext byte for byte; and at the level of the chunk passes the
wrapping-add pass and the wrapping-sub pass are exact mutual inverses. -/
theorem c1_cipher_round_trip (P : List Nat) (hlen : P.length = SAVEDATA_SIZE)
    (hbytes : byteOk P) :
    (encrypt_savedata P = .ok (encryptPassT (writeChecksum P)) ∧
     decrypt_savedata (encryptPassT (writeChecksum P)) = .ok (writeChecksum P) ∧
     (writeChecksum P).drop 20 = P.drop 20) ∧
    (∀ C D : List Nat, C.length = SAVEDATA_SIZE → byteOk C →
      decrypt_savedata C = .ok D → encrypt_savedata D = .ok C) ∧
    decryptPassT (encryptPassT P) = P ∧ encryptPassT (decryptPassT P) = P := by
  obtain ⟨h1, h2⟩ := decrypt_encrypt_roundtrip P hlen hbytes
  exact ⟨⟨h1, h2, writeChecksum_drop P⟩,
    fun C D hC hbC hd => encrypt_decrypt_roundtrip C D hC hbC hd,
    decryptPassT_encryptPassT P hlen hbytes, encryptPassT_decryptPassT P hlen hbytes⟩

/-- C1 witness: the round trip applied to the all-zero buffer. -/
theorem c1_cipher_round_trip_witness :
    (encrypt_savedata (List.replicate SAVEDATA_SIZE 0) =
       .ok (encryptPassT (writeChecksum (List.replicate SAVEDATA_SIZE 0))) ∧
     decrypt_savedata (encryptPassT (writeChecksum (List.replicate SAVEDATA_SIZE 0))) =
       .ok (writeChecksum (List.replicate SAVEDATA_SIZE 0)) ∧
     (writeChecksum (List.replicate SAVEDATA_SIZE 0)).drop 20 =
       (List.replicate SAVEDATA_SIZE 0).drop 20) ∧
    (∀ C D : List Nat, C.length = SAVEDATA_SIZE → byteOk C →
      decrypt_savedata C = .ok D → encrypt_savedata D = .ok C) ∧
    decryptPassT (encryptPassT (List.replicate SAVEDATA_SIZE 0)) = List.replicate SAVEDATA_SIZE 0 ∧
    encryptPassT (decryptPassT (List.replicate SAVEDATA_SIZE 0)) = List.replicate SAVEDATA_SIZE 0 :=
  c1_cipher_round_trip (List.replicate SAVEDATA_SIZE 0) (by simp)
    (by intro x hx; rw [List.eq_of_mem_replicate hx]; omega)

lemma decrypt_savedata_undersized (b : List Nat) (h : b.length < SAVEDATA_SIZE) :
    decrypt_savedata b = .error .panicked := by
  unfold decrypt_savedata
  rw [decryptPass_err b h]

lemma encrypt_savedata_undersized (b : List Nat) (h : b.length < SAVEDATA_SIZE) :
    encrypt_savedata b = .error .panicked := by
  unfold encrypt_savedata
  by_cases h20 : b.length < 20
  · rw [if_pos h20]
  · rw [if_neg h20, if_pos (sha1_length _)]
    apply encryptPass_err
    rw [List.length_append, sha1_length, List.length_drop]
    rw [show SAVEDATA_SIZE = 0x34000 from rfl] at h ⊢
    omega

/-- C6 (amended).  There is no size check and no typed SizeError: the
code never constructs a SizeError value.  An undersized buffer makes
both operations panic partway (an out-of-bounds slice index in the
cipher loops, or slicing past the end when hashing), after partial
processing rather than before any byte transformation. -/
theorem c6_no_size_check (b : List Nat) (h : b.length < SAVEDATA_SIZE) :
    decrypt_savedata b = .error .panicked ∧ encrypt_savedata b = .error .panicked ∧
    decrypt_savedata b ≠ .error .sizeError ∧ encrypt_savedata b ≠ .error .sizeError := by
  have hd := decrypt_savedata_undersized b h
  have he := encrypt_savedata_undersized b h
  refine ⟨hd, he, ?_, ?_⟩
  · rw [hd]
    simp
  · rw [he]
    simp

/-- C6 witness: a 21-byte buffer. -/
theorem c6_no_size_check_witness :
    decrypt_savedata (List.replicate 21 7) = .error .panicked ∧
    encrypt_savedata (List.replicate 21 7) = .error .panicked ∧
    decrypt_savedata (List.replicate 21 7) ≠ .error .sizeError ∧
    encrypt_savedata (List.replicate 21 7) ≠ .error .sizeError :=
  c6_no_size_check (List.replicate 21 7) (by simp; decide)

/-- C6 counterexample: on a 21-byte buffer decrypt panics; it does not
return the typed SizeError result the claim describes. -/
theorem c6_counterexample :
    decrypt_savedata (List.replicate 21 7) ≠ .error .sizeError ∧
    decrypt_savedata (List.replicate 21 7) = .error .panicked := by
  have hd := decrypt_savedata_undersized (List.replicate 21 7) (by simp; decide)
  exact ⟨by rw [hd]; simp, hd⟩

lemma foldl_sub_getD_low (ks : List Nat) (c : Nat) : ∀ b : List Nat,
    (∀ k ∈ ks, c ≤ k ∧ k * 16 + 16 ≤ b.length) → 1 ≤ c → ∀ j, j < c * 16 →
    (ks.foldl (fun b k => cipherChunkSubT k b) b).getD j 0 = b.getD j 0 := by
  induction ks with
  | nil =>
    intro b _ _ j _
    rfl
  | cons k t ih =>
    intro b hks hc j hj
    obtain ⟨hk, hl⟩ := hks k (List.mem_cons_self k t)
    rw [List.foldl_cons]
    rw [ih (cipherChunkSubT k b)
      (fun k2 hk2 => by
        rw [cipherChunkSubT_length]
        exact hks k2 (List.mem_cons_of_mem k hk2)) hc j hj]
    rw [cipherChunkSubT_getD k (by omega) b hl j, if_neg (by omega)]

lemma foldl_add_getD_low (ks : List Nat) (c : Nat) : ∀ b : List Nat,
    (∀ k ∈ ks, c ≤ k ∧ k * 16 + 16 ≤ b.length) → 1 ≤ c → ∀ j, j < c * 16 →
    (ks.foldl (fun b k => cipherChunkAddT k b) b).getD j 0 = b.getD j 0 := by
  induction ks with
  | nil =>
    intro b _ _ j _
    rfl
  | cons k t ih =>
    intro b hks hc j hj
    obtain ⟨hk, hl⟩ := hks k (List.mem_cons_self k t)
    rw [List.foldl_cons]
    rw [ih (cipherChunkAddT k b)
      (fun k2 hk2 => by
        rw [cipherChunkAddT_length]
        exact hks k2 (List.mem_cons_of_mem k hk2)) hc j hj]
    rw [cipherChunkAddT_getD k (by omega) b hl j, if_neg (by omega)]

lemma chunkRange2_mem (k : Nat) (hk : k ∈ List.range' 2 0x33FE) :
    2 ≤ k ∧ k * 16 + 16 ≤ SAVEDATA_SIZE := by
  rw [List.mem_range'_1] at hk
  rw [show SAVEDATA_SIZE = 0x34000 from rfl]
  omega

lemma decryptPassT_decomp (b : List Nat) :
    decryptPassT b =
      cipherChunkSubT 1
        ((List.range' 2 0x33FE).reverse.foldl (fun b k => cipherChunkSubT k b) b) := by
  unfold decryptPassT
  rw [show CHUNK_COUNT - 1 = 0x33FE + 1 from rfl, List.range'_succ, List.reverse_cons,
    List.foldl_append, List.foldl_cons, List.foldl_nil]

lemma encryptPassT_decomp (b : List Nat) :
    encryptPassT b =
      (List.range' 2 0x33FE).foldl (fun b k => cipherChunkAddT k b) (cipherChunkAddT 1 b) := by
  unfold encryptPassT
  rw [show CHUNK_COUNT - 1 = 0x33FE + 1 from rfl, List.range'_succ, List.foldl_cons]

lemma decryptPassT_byte16 (b : List Nat) (hlen : b.length = SAVEDATA_SIZE) :
    (decryptPassT b).getD 16 0 = wrapping_sub (b.getD 16 0) (b.getD 1 0) := by
  rw [decryptPassT_decomp]
  have hlen2 : ((List.range' 2 0x33FE).reverse.foldl (fun b k => cipherChunkSubT k b) b).length
      = SAVEDATA_SIZE := by
    rw [foldl_sub_length, hlen]
  have hmem : ∀ k ∈ (List.range' 2 0x33FE).reverse, 2 ≤ k ∧ k * 16 + 16 ≤ b.length := by
    intro k hk
    rw [hlen]
    exact chunkRange2_mem k (List.mem_reverse.mp hk)
  rw [cipherChunkSubT_getD 1 (by omega) _ (by rw [hlen2]; decide) 16, if_pos (by decide)]
  rw [show chunkOffset 1 16 = 1 from rfl]
  rw [foldl_sub_getD_low _ 2 b hmem (by omega) 16 (by omega)]
  rw [foldl_sub_getD_low _ 2 b hmem (by omega) 1 (by omega)]

lemma encryptPassT_byte16 (b : List Nat) (hlen : b.length = SAVEDATA_SIZE) :
    (encryptPassT b).getD 16 0 = wrapping_add (b.getD 16 0) (b.getD 1 0) := by
  rw [encryptPassT_decomp]
  have hclen : (cipherChunkAddT 1 b).length = SAVEDATA_SIZE := by
    rw [cipherChunkAddT_length, hlen]
  have hmem : ∀ k ∈ List.range' 2 0x33FE, 2 ≤ k ∧ k * 16 + 16 ≤ (cipherChunkAddT 1 b).length := by
    intro k hk
    rw [hclen]
    exact chunkRange2_mem k hk
  rw [foldl_add_getD_low _ 2 _ hmem (by omega) 16 (by omega)]
  rw [cipherChunkAddT_getD 1 (by omega) b (by rw [hlen]; decide) 16, if_pos (by decide)]
  rw [show chunkOffset 1 16 = 1 from rfl]

lemma encryptPassT_byte31 (b : List Nat) (hlen : b.length = SAVEDATA_SIZE) :
    (encryptPassT b).getD 31 0 = wrapping_add (b.getD 31 0) (b.getD 0 0) := by
  rw [encryptPassT_decomp]
  have hclen : (cipherChunkAddT 1 b).length = SAVEDATA_SIZE := by
    rw [cipherChunkAddT_length, hlen]
  have hmem : ∀ k ∈ List.range' 2 0x33FE, 2 ≤ k ∧ k * 16 + 16 ≤ (cipherChunkAddT 1 b).length := by
    intro k hk
    rw [hclen]
    exact chunkRange2_mem k hk
  rw [foldl_add_getD_low _ 2 _ hmem (by omega) 31 (by omega)]
  rw [cipherChunkAddT_getD 1 (by omega) b (by rw [hlen]; decide) 31, if_pos (by decide)]
  rw [show chunkOffset 1 31 = 0 from rfl]

lemma decryptPassT_getD_low (b : List Nat) (hlen : b.length = SAVEDATA_SIZE)
    (j : Nat) (hj : j < 16) : (decryptPassT b).getD j 0 = b.getD j 0 := by
  unfold decryptPassT
  refine foldl_sub_getD_low _ 1 b ?_ (by omega) j (by omega)
  intro k hk
  rw [hlen]
  exact chunkRange_mem k (List.mem_reverse.mp hk)

lemma encryptPassT_getD_low (b : List Nat) (hlen : b.length = SAVEDATA_SIZE)
    (j : Nat) (hj : j < 16) : (encryptPassT b).getD j 0 = b.getD j 0 := by
  unfold encryptPassT
  refine foldl_add_getD_low _ 1 b ?_ (by omega) j (by omega)
  intro k hk
  rw [hlen]
  exact chunkRange_mem k hk

/-- C8 (amended).  Only the first 16 bytes sit outside the cipher: on a
full-size buffer both cipher passes leave bytes [0, 16) unchanged, but
bytes [16, 20) of the checksum region ARE transformed (byte 16 becomes
its wrapping sum/difference with byte 1), so the cipher both reads
bytes of [0, 16) and overwrites bytes [16, 20): the claimed untouched
region [0, 20) is wrong, the untouched region is chunk 0's first
sixteen bytes [0, 16). -/
theorem c8_checksum_region (b : List Nat) (hlen : b.length = SAVEDATA_SIZE) :
    decryptPass b = .ok (decryptPassT b) ∧ encryptPass b = .ok (encryptPassT b) ∧
    (∀ j, j < 16 → (decryptPassT b).getD j 0 = b.getD j 0) ∧
    (∀ j, j < 16 → (encryptPassT b).getD j 0 = b.getD j 0) ∧
    (decryptPassT b).getD 16 0 = wrapping_sub (b.getD 16 0) (b.getD 1 0) ∧
    (encryptPassT b).getD 16 0 = wrapping_add (b.getD 16 0) (b.getD 1 0) :=
  ⟨decryptPass_ok b hlen, encryptPass_ok b hlen,
    fun j hj => decryptPassT_getD_low b hlen j hj,
    fun j hj => encryptPassT_getD_low b hlen j hj,
    decryptPassT_byte16 b hlen, encryptPassT_byte16 b hlen⟩

/-- C8 witness: the amended frame property at the all-ones buffer. -/
theorem c8_checksum_region_witness :
    decryptPass (List.replicate SAVEDATA_SIZE 1) =
      .ok (decryptPassT (List.replicate SAVEDATA_SIZE 1)) ∧
    encryptPass (List.replicate SAVEDATA_SIZE 1) =
      .ok (encryptPassT (List.replicate SAVEDATA_SIZE 1)) ∧
    (∀ j, j < 16 → (decryptPassT (List.replicate SAVEDATA_SIZE 1)).getD j 0 =
      (List.replicate SAVEDATA_SIZE 1).getD j 0) ∧
    (∀ j, j < 16 → (encryptPassT (List.replicate SAVEDATA_SIZE 1)).getD j 0 =
      (List.replicate SAVEDATA_SIZE 1).getD j 0) ∧
    (decryptPassT (List.replicate SAVEDATA_SIZE 1)).getD 16 0 =
      wrapping_sub ((List.replicate SAVEDATA_SIZE 1).getD 16 0)
        ((List.replicate SAVEDATA_SIZE 1).getD 1 0) ∧
    (encryptPassT (List.replicate SAVEDATA_SIZE 1)).getD 16 0 =
      wrapping_add ((List.replicate SAVEDATA_SIZE 1).getD 16 0)
        ((List.replicate SAVEDATA_SIZE 1).getD 1 0) :=
  c8_checksum_region (List.replicate SAVEDATA_SIZE 1) (by simp)

/-- C8 counterexample: byte 16, inside the claimed untouched region
[0, 20), is changed by the decrypt pass on the all-ones buffer (1
becomes 0); and the encrypt pass reads the region: two buffers that
agree everywhere except at byte 0 produce cipher outputs that differ at
byte 31. -/
theorem c8_counterexample :
    ((List.replicate SAVEDATA_SIZE 1).getD 16 0 = 1 ∧
     (decryptPassT (List.replicate SAVEDATA_SIZE 1)).getD 16 0 = 0 ∧
     decryptPass (List.replicate SAVEDATA_SIZE 1) =
       .ok (decryptPassT (List.replicate SAVEDATA_SIZE 1))) ∧
    ((List.replicate SAVEDATA_SIZE 0).getD 31 0 =
       (2 :: List.replicate (SAVEDATA_SIZE - 1) 0).getD 31 0 ∧
     (encryptPassT (List.replicate SAVEDATA_SIZE 0)).getD 31 0 = 0 ∧
     (encryptPassT (2 :: List.replicate (SAVEDATA_SIZE - 1) 0)).getD 31 0 = 2) := by
  refine ⟨⟨by decide, ?_, decryptPass_ok _ (by simp)⟩, ⟨by decide, ?_, ?_⟩⟩
  · rw [decryptPassT_byte16 _ (by simp)]
    decide
  · rw [encryptPassT_byte31 _ (by simp)]
    decide
  · rw [encryptPassT_byte31 _ (by rw [List.length_cons, List.length_replicate]; decide)]
    decide

end PiiPii
